import Mathlib

set_option maxHeartbeats 1000000
set_option maxRecDepth 4096

/-!
Verification development for the GLM content-generator adapter
(`packages/core/src/core/glmContentGenerator.ts`): a shallow embedding of
its translation layer between the canonical content/parts model and the
vendor's chat-completions wire format, together with theorems about the
message normalizer, tool-schema mapper, response translator, SSE decoder
and stream aggregator.
-/

/-- JSON values as handled by the host runtime's JSON facilities.
Numbers are modelled as exact decimals `m * 10 ^ e` in normalised form
(no trailing zeros in `m`), which represents every numeric literal this
adapter handles exactly. -/
inductive Json where
  | null : Json
  | bool (b : Bool) : Json
  | num (m : Int) (e : Int) : Json
  | str (s : String) : Json
  | arr (items : List Json) : Json
  | obj (fields : List (String × Json)) : Json

/-- Hexadecimal digit rendering used when escaping control characters. -/
def hexDigit (n : Nat) : String :=
  if n < 10 then toString n
  else if n = 10 then "a" else if n = 11 then "b" else if n = 12 then "c"
  else if n = 13 then "d" else if n = 14 then "e" else "f"

/-- Escape one character for a JSON string literal. -/
def escapeJsonChar (c : Char) : String :=
  if c = '"' then "\\\""
  else if c = '\\' then "\\\\"
  else if c = '\n' then "\\n"
  else if c = '\r' then "\\r"
  else if c = '\t' then "\\t"
  else if c = Char.ofNat 8 then "\\b"
  else if c = Char.ofNat 12 then "\\f"
  else if c.toNat < 32 then "\\u00" ++ hexDigit (c.toNat / 16) ++ hexDigit (c.toNat % 16)
  else String.singleton c

/-- Render a string as a quoted JSON string literal. -/
def escapeJsonString (s : String) : String :=
  "\"" ++ String.join (s.data.map escapeJsonChar) ++ "\""

/-- Render a run of zero digits. -/
def zerosStr (n : Nat) : String :=
  String.mk (List.replicate n '0')

/-- Render the decimal `m * 10 ^ e` the way the host serialiser prints
numbers of moderate magnitude. -/
def renderNum (m : Int) (e : Int) : String :=
  if 0 ≤ e then toString m ++ zerosStr e.toNat
  else
    let k := (-e).toNat
    let s := toString m.natAbs
    let s := if s.length ≤ k then zerosStr (k + 1 - s.length) ++ s else s
    (if m < 0 then "-" else "") ++ s.dropRight k ++ "." ++ s.takeRight k

mutual

/-- Serialise a JSON value, modelling the host runtime's JSON.stringify
(compact form: no whitespace between tokens). -/
def Json.stringify : Json → String
  | .null => "null"
  | .bool true => "true"
  | .bool false => "false"
  | .num m e => renderNum m e
  | .str s => escapeJsonString s
  | .arr items => "[" ++ Json.stringifyItems items ++ "]"
  | .obj fields => "\x7b" ++ Json.stringifyFields fields ++ "\x7d"

/-- Serialise the comma-separated elements of a JSON array. -/
def Json.stringifyItems : List Json → String
  | [] => ""
  | [x] => Json.stringify x
  | x :: y :: xs => Json.stringify x ++ "," ++ Json.stringifyItems (y :: xs)

/-- Serialise the comma-separated members of a JSON object. -/
def Json.stringifyFields : List (String × Json) → String
  | [] => ""
  | [(k, v)] => escapeJsonString k ++ ":" ++ Json.stringify v
  | (k, v) :: y :: xs =>
      escapeJsonString k ++ ":" ++ Json.stringify v ++ "," ++ Json.stringifyFields (y :: xs)

end

/-- Whitespace accepted between JSON tokens. -/
def isJsonWs (c : Char) : Bool :=
  c = ' ' || c = '\t' || c = '\n' || c = '\r'

/-- Skip JSON inter-token whitespace. -/
def skipWs (input : List Char) : List Char :=
  match input with
  | c :: more => if isJsonWs c then skipWs more else input
  | [] => input

/-- Match a literal character sequence at the head of the input. -/
def stripLit : List Char → List Char → Option (List Char)
  | [], cs => some cs
  | _ :: _, [] => none
  | l :: ls, c :: cs => if c = l then stripLit ls cs else none

/-- Value of a hexadecimal digit, if any (code-point arithmetic). -/
def hexVal (c : Char) : Option Nat :=
  let cp := c.toNat
  if 48 ≤ cp ∧ cp ≤ 57 then some (cp - 48)
  else if 97 ≤ cp ∧ cp ≤ 102 then some (cp - 87)
  else if 65 ≤ cp ∧ cp ≤ 70 then some (cp - 55)
  else none

/-- Parse the body of a JSON string literal (the opening quote already
consumed), returning the decoded string and the rest of the input. -/
def parseStringBody : Nat → List Char → Option (String × List Char)
  | 0, _ => none
  | _, [] => none
  | fuel + 1, c :: cs =>
    if c = '"' then some ("", cs)
    else if c = '\\' then
      match cs with
      | [] => none
      | e :: cs2 =>
        let decoded : Option (Char × List Char) :=
          if e = '"' then some ('"', cs2)
          else if e = '\\' then some ('\\', cs2)
          else if e = '/' then some ('/', cs2)
          else if e = 'b' then some (Char.ofNat 8, cs2)
          else if e = 'f' then some (Char.ofNat 12, cs2)
          else if e = 'n' then some ('\n', cs2)
          else if e = 'r' then some ('\r', cs2)
          else if e = 't' then some ('\t', cs2)
          else if e = 'u' then
            match cs2 with
            | h1 :: h2 :: h3 :: h4 :: cs3 =>
              match hexVal h1, hexVal h2, hexVal h3, hexVal h4 with
              | some a, some b, some c3, some d =>
                some (Char.ofNat (((a * 16 + b) * 16 + c3) * 16 + d), cs3)
              | _, _, _, _ => none
            | _ => none
          else none
        match decoded with
        | none => none
        | some (ch, rest) =>
          match parseStringBody fuel rest with
          | none => none
          | some (s, rest2) => some (String.singleton ch ++ s, rest2)
    else if c.toNat < 32 then none
    else
      match parseStringBody fuel cs with
      | none => none
      | some (s, rest) => some (String.singleton c ++ s, rest)

/-- Split a run of decimal digits from the head of the input. -/
def spanDigits (input : List Char) : List Char × List Char :=
  match input with
  | c :: more =>
    if c.isDigit then
      let tail := spanDigits more
      (c :: tail.1, tail.2)
    else ([], input)
  | [] => ([], [])

/-- Numeric value of a digit run. -/
def digitsToNat (ds : List Char) : Nat :=
  ds.foldl (fun sofar c => 10 * sofar + (c.toNat - 48)) 0

/-- Normalise a decimal mantissa/exponent pair by removing trailing zeros. -/
def normNum : Nat → Int → Int → Json
  | 0, m, e => if m = 0 then Json.num 0 0 else Json.num m e
  | fuel + 1, m, e =>
    if m = 0 then Json.num 0 0
    else if m % 10 = 0 then normNum fuel (m / 10) (e + 1)
    else Json.num m e

/-- Parse a JSON number per the JSON grammar. -/
def parseNumber (cs : List Char) : Option (Json × List Char) :=
  let signSplit :
      Bool × List Char :=
    match cs with
    | c :: rest => if c = '-' then (true, rest) else (false, cs)
    | [] => (false, cs)
  let neg := signSplit.1
  let cs1 := signSplit.2
  let (ids, cs2) := spanDigits cs1
  if ids.isEmpty then none
  else if ids.length > 1 && ids.headD '0' = '0' then none
  else
    let (fds, cs3) :=
      match cs2 with
      | '.' :: rest =>
        let (ds, r) := spanDigits rest
        (ds, r)
      | _ => ([], cs2)
    if (match cs2 with | '.' :: _ => fds.isEmpty | _ => false) then none
    else
      let (expOk, expVal, cs4) :=
        match cs3 with
        | c :: rest =>
          if c = 'e' || c = 'E' then
            let (esign, rest2) :=
              match rest with
              | s :: r2 => if s = '-' then (-1, r2) else if s = '+' then (1, r2) else (1, rest)
              | [] => (1, rest)
            let (eds, rest3) := spanDigits rest2
            if eds.isEmpty then (false, (0 : Int), cs3)
            else (true, esign * (digitsToNat eds : Int), rest3)
          else (true, 0, cs3)
        | [] => (true, 0, cs3)
      if !expOk then none
      else
        let mant : Nat := digitsToNat (ids ++ fds)
        let signed : Int := if neg then -(mant : Int) else (mant : Int)
        let e : Int := expVal - (fds.length : Int)
        some (normNum (ids.length + fds.length + 1) signed e, cs4)

mutual

/-- Parse one JSON value (fuel-indexed recursive descent). -/
def parseValue : Nat → List Char → Option (Json × List Char)
  | 0, _ => none
  | fuel + 1, cs =>
    match skipWs cs with
    | [] => none
    | c :: rest =>
      if c = 'n' then
        match stripLit ['u', 'l', 'l'] rest with
        | some r => some (Json.null, r)
        | none => none
      else if c = 't' then
        match stripLit ['r', 'u', 'e'] rest with
        | some r => some (Json.bool true, r)
        | none => none
      else if c = 'f' then
        match stripLit ['a', 'l', 's', 'e'] rest with
        | some r => some (Json.bool false, r)
        | none => none
      else if c = '"' then
        match parseStringBody (rest.length + 1) rest with
        | some (s, r) => some (Json.str s, r)
        | none => none
      else if c = '[' then
        match skipWs rest with
        | ']' :: r => some (Json.arr [], r)
        | other => parseArrayItems fuel other []
      else if c = '\x7b' then
        match skipWs rest with
        | '\x7d' :: r => some (Json.obj [], r)
        | other => parseObjectFields fuel other []
      else
        parseNumber (c :: rest)

/-- Parse the remaining elements of a JSON array (at least one expected). -/
def parseArrayItems : Nat → List Char → List Json → Option (Json × List Char)
  | 0, _, _ => none
  | fuel + 1, cs, acc =>
    match parseValue fuel cs with
    | none => none
    | some (v, rest) =>
      match skipWs rest with
      | ',' :: r2 => parseArrayItems fuel r2 (acc ++ [v])
      | ']' :: r2 => some (Json.arr (acc ++ [v]), r2)
      | _ => none

/-- Parse the remaining members of a JSON object (at least one expected). -/
def parseObjectFields : Nat → List Char → List (String × Json) → Option (Json × List Char)
  | 0, _, _ => none
  | fuel + 1, cs, acc =>
    match skipWs cs with
    | '"' :: rest =>
      match parseStringBody (rest.length + 1) rest with
      | none => none
      | some (k, r1) =>
        match skipWs r1 with
        | ':' :: r2 =>
          match parseValue fuel r2 with
          | none => none
          | some (v, r3) =>
            match skipWs r3 with
            | ',' :: r4 => parseObjectFields fuel r4 (acc ++ [(k, v)])
            | '\x7d' :: r4 => some (Json.obj (acc ++ [(k, v)]), r4)
            | _ => none
        | _ => none
    | _ => none

end

/-- Parse a complete JSON document, modelling the host runtime's JSON
parser: the whole input (up to trailing whitespace) must be consumed. -/
def Json.parse (s : String) : Option Json :=
  match parseValue (2 * s.length + 8) s.data with
  | none => none
  | some (v, rest) =>
    match skipWs rest with
    | [] => some v
    | _ :: _ => none

example : Json.parse "null" = some Json.null := by rfl
example : Json.parse " \x7b\"path\": \"foo\"\x7d " =
    some (Json.obj [("path", Json.str "foo")]) := by rfl
example : Json.parse "\x7b\"x\":1\x7d" = some (Json.obj [("x", Json.num 1 0)]) := by rfl
example : Json.parse "[1,2.50,-3e2,\"a\\n\"]" =
    some (Json.arr [Json.num 1 0, Json.num 25 (-1), Json.num (-3) 2, Json.str "a\n"]) := by
  rfl
example : Json.parse "not json" = none := by rfl
example : Json.parse "" = none := by rfl
example : (Json.obj [("path", Json.str "foo")]).stringify = "\x7b\"path\":\"foo\"\x7d" := by
  rfl

namespace Glm

/-- Canonical inline-data blob; the adapter reads only the mime type. -/
structure Blob where
  mimeType : Option String
deriving Repr

/-- Canonical file-data reference; the adapter reads only the mime type. -/
structure FileData where
  mimeType : Option String
deriving Repr

/-- Canonical function call carried inside a Part. -/
structure FunctionCallData where
  id : Option String
  name : Option String
  args : Option Json

/-- Canonical function result carried inside a Part. -/
structure FunctionResponseData where
  id : Option String
  name : Option String
  response : Option Json

/-- Canonical Part: a flat record of optional fields, mirroring the host
SDK's Part type (the fields this adapter reads). -/
structure Part where
  text : Option String
  thought : Option Bool
  functionCall : Option FunctionCallData
  functionResponse : Option FunctionResponseData
  inlineData : Option Blob
  fileData : Option FileData

/-- Part with every field absent. -/
def Part.empty : Part :=
  { text := none, thought := none, functionCall := none, functionResponse := none,
    inlineData := none, fileData := none }

/-- Canonical turn: optional role plus an optional ordered list of parts. -/
structure Content where
  role : Option String
  parts : Option (List Part)

/-- One block of a vendor array-form content value. -/
structure GlmContentBlock where
  type : Option String
  text : Option String

/-- Vendor content value: a plain string or an array of typed blocks
(absence and null are represented by wrapping in Option). -/
inductive GlmContentValue where
  | str (s : String) : GlmContentValue
  | blocks (bs : List GlmContentBlock) : GlmContentValue

/-- Function payload of a vendor tool call. -/
structure GlmToolCallFunction where
  name : Option String
  arguments : Option String

/-- Vendor tool call as carried on messages, responses and stream deltas. -/
structure GlmToolCall where
  id : Option String
  type : Option String
  function : Option GlmToolCallFunction

/-- Vendor message roles. -/
inductive GlmRole where
  | system : GlmRole
  | user : GlmRole
  | assistant : GlmRole
  | tool : GlmRole
deriving DecidableEq, Repr

/-- Vendor chat message. -/
structure GlmMessage where
  role : GlmRole
  content : Option GlmContentValue
  reasoning_content : Option GlmContentValue
  name : Option String
  tool_call_id : Option String
  tool_calls : Option (List GlmToolCall)

/-- Function member of a vendor tool definition. -/
structure GlmToolDefFunction where
  name : String
  description : Option String
  parameters : Option Json

/-- Vendor tool definition sent on the request. -/
structure GlmToolDefinition where
  type : String
  function : GlmToolDefFunction

/-- Vendor tool-choice encoding. -/
inductive ToolChoice where
  | auto : ToolChoice
  | none : ToolChoice
  | required : ToolChoice
  | function (name : String) : ToolChoice
deriving DecidableEq, Repr

/-- Reasoning directive attached to every request. -/
structure Thinking where
  type : String
  clear_thinking : Option Bool
deriving DecidableEq, Repr

/-- Outbound vendor request payload. -/
structure GlmChatCompletionRequest where
  model : String
  messages : List GlmMessage
  temperature : Option Rat
  top_p : Option Rat
  max_tokens : Option Nat
  stream : Bool
  tools : Option (List GlmToolDefinition)
  tool_choice : Option ToolChoice
  thinking : Option Thinking

/-- Nested reasoning-token spelling inside vendor usage. -/
structure GlmUsageDetails where
  reasoning_tokens : Option Nat
deriving DecidableEq, Repr

/-- Vendor usage accounting. -/
structure GlmUsage where
  prompt_tokens : Option Nat
  completion_tokens : Option Nat
  total_tokens : Option Nat
  reasoning_tokens : Option Nat
  completion_tokens_details : Option GlmUsageDetails
deriving DecidableEq, Repr

/-- Message member of a non-streaming vendor choice. -/
structure GlmResponseMessage where
  content : Option GlmContentValue
  reasoning_content : Option GlmContentValue
  tool_calls : Option (List GlmToolCall)

/-- Non-streaming vendor choice. -/
structure GlmChatCompletionChoice where
  index : Nat
  message : Option GlmResponseMessage
  finish_reason : Option String

/-- Non-streaming vendor response. -/
structure GlmChatCompletionResponse where
  id : Option String
  model : Option String
  choices : Option (List GlmChatCompletionChoice)
  usage : Option GlmUsage

/-- Delta member of a streamed vendor choice. -/
structure GlmChunkDelta where
  content : Option GlmContentValue
  reasoning_content : Option GlmContentValue
  tool_calls : Option (List GlmToolCall)

/-- Streamed vendor choice. -/
structure GlmChatCompletionChunkChoice where
  index : Nat
  delta : Option GlmChunkDelta
  finish_reason : Option String

/-- Streamed vendor chunk. -/
structure GlmChatCompletionChunk where
  id : Option String
  choices : Option (List GlmChatCompletionChunkChoice)
  usage : Option GlmUsage
  model : Option String

/-- Canonical finish reasons this adapter can produce. -/
inductive FinishReason where
  | STOP : FinishReason
  | MAX_TOKENS : FinishReason
  | SAFETY : FinishReason
deriving DecidableEq, Repr

/-- Canonical usage metadata. -/
structure UsageMetadata where
  promptTokenCount : Option Nat
  candidatesTokenCount : Option Nat
  totalTokenCount : Option Nat
  thoughtsTokenCount : Option Nat
deriving DecidableEq, Repr

/-- Canonical response candidate. -/
structure Candidate where
  content : Content
  finishReason : Option FinishReason

/-- Canonical response (the fields this adapter sets; fields left unset by
the source's partial-object construction are none). -/
structure GenerateContentResponse where
  responseId : Option String
  modelVersion : Option String
  candidates : Option (List Candidate)
  usageMetadata : Option UsageMetadata
  functionCalls : Option (List FunctionCallData)

/-- Accumulated state of one streamed tool call. -/
structure PendingToolCallState where
  id : String
  name : String
  args : String
deriving DecidableEq, Repr

/-- Insertion-ordered map of pending tool calls, modelling the host Map:
updates keep position, new keys append. -/
abbrev PendingMap : Type := List (String × PendingToolCallState)

/-- Lookup in the pending map. -/
def mapGet (m : PendingMap) (k : String) : Option PendingToolCallState :=
  match m with
  | [] => none
  | (k0, v0) :: rest => if k0 = k then some v0 else mapGet rest k

/-- Insert-or-update in the pending map, preserving insertion order. -/
def mapSet (m : PendingMap) (k : String) (v : PendingToolCallState) : PendingMap :=
  match m with
  | [] => [(k, v)]
  | (k0, v0) :: rest => if k0 = k then (k, v) :: rest else (k0, v0) :: mapSet rest k v

/-- Truthiness of an optional string, as the source's falsy checks see it
(absent, null and the empty string are all falsy). -/
def strTruthy : Option String → Bool
  | some s => s != ""
  | none => false

/-- Default vendor model identifier. -/
def DEFAULT_GLM_MODEL : String := "glm-4.7"

/-- Map the caller-specified model name onto a vendor model name; a falsy
or foreign name is replaced by the fixed default. -/
def mapModelName (model : Option String) : String :=
  match model with
  | none => DEFAULT_GLM_MODEL
  | some s =>
    if s = "" then DEFAULT_GLM_MODEL
    else if s.startsWith "glm-" then s
    else DEFAULT_GLM_MODEL

/-- Flatten a vendor content value to plain text: strings pass through,
block arrays keep each block's non-empty text joined with no delimiter,
absent or null content becomes the empty string. -/
def normalizeContentText (content : Option GlmContentValue) : String :=
  match content with
  | none => ""
  | some (.str s) => s
  | some (.blocks bs) =>
    String.join (((bs.map (fun b => b.text.getD "")).filter (fun t => t.length > 0)))

/-- Flatten a vendor reasoning value to plain text (same rules as
normalizeContentText; the source keeps the two functions separate). -/
def normalizeReasoningText (content : Option GlmContentValue) : String :=
  match content with
  | none => ""
  | some (.str s) => s
  | some (.blocks bs) =>
    String.join (((bs.map (fun b => b.text.getD "")).filter (fun t => t.length > 0)))

/-- Map vendor usage accounting onto canonical usage metadata, preferring
the flat reasoning-token spelling over the nested one. -/
def toUsageMetadata (usage : Option GlmUsage) : Option UsageMetadata :=
  match usage with
  | none => none
  | some u =>
    let reasoningTokens : Option Nat :=
      match u.reasoning_tokens with
      | some r => some r
      | none => u.completion_tokens_details.bind (fun d => d.reasoning_tokens)
    some { promptTokenCount := u.prompt_tokens,
           candidatesTokenCount := u.completion_tokens,
           totalTokenCount := u.total_tokens,
           thoughtsTokenCount := reasoningTokens }

/-- Stringify a value; on the JSON values modelled here the host
serialiser cannot throw, so the source's catch branch never fires. -/
def safeJsonStringify (value : Json) : String :=
  value.stringify

/-- Parse a tool-call argument string: a falsy string yields the empty
object, invalid JSON yields the raw-string fallback object. -/
def parseArguments (argumentString : Option String) : Json :=
  match argumentString with
  | none => Json.obj []
  | some s =>
    if s = "" then Json.obj []
    else
      match Json.parse s with
      | some v => v
      | none => Json.obj [("raw", Json.str s)]

/-- Map a vendor finish reason onto the canonical one; unknown or absent
values stay unset. -/
def convertFinishReason (reason : Option String) : Option FinishReason :=
  match reason with
  | some "stop" => some FinishReason.STOP
  | some "length" => some FinishReason.MAX_TOKENS
  | some "content_filter" => some FinishReason.SAFETY
  | some "tool_calls" => some FinishReason.STOP
  | _ => none

/-- Canonical tool-choice modes of the host SDK. -/
inductive FunctionCallingConfigMode where
  | MODE_UNSPECIFIED : FunctionCallingConfigMode
  | AUTO : FunctionCallingConfigMode
  | ANY : FunctionCallingConfigMode
  | NONE : FunctionCallingConfigMode
  | VALIDATED : FunctionCallingConfigMode
deriving DecidableEq, Repr

/-- Map the canonical tool-choice mode and allow list onto the vendor
encoding; the absent result means the payload carries no tool_choice. -/
def buildToolChoice (mode : Option FunctionCallingConfigMode)
    (allowed : Option (List String)) : Option ToolChoice :=
  match mode with
  | Option.none => Option.none
  | some FunctionCallingConfigMode.AUTO => Option.none
  | some FunctionCallingConfigMode.NONE => some ToolChoice.none
  | some m =>
    if m = FunctionCallingConfigMode.ANY || m = FunctionCallingConfigMode.VALIDATED then
      match allowed with
      | some [n] => some (ToolChoice.function n)
      | _ => some ToolChoice.required
    else Option.none

/-- Canonical function declaration (the fields this adapter reads). -/
structure FunctionDeclaration where
  name : Option String
  description : Option String
  parameters : Option Json
  parametersJsonSchema : Option Json

/-- Canonical tool: a bundle of function declarations. -/
structure Tool where
  functionDeclarations : Option (List FunctionDeclaration)

/-- Host SDK tool-list union: a single tool or an array of tools. -/
inductive ToolListUnion where
  | one (t : Tool) : ToolListUnion
  | many (ts : List Tool) : ToolListUnion

/-- Keep the list entries that carry a functionDeclarations field. -/
def extractTools (toolList : Option ToolListUnion) : List Tool :=
  match toolList with
  | none => []
  | some (.one t) => if t.functionDeclarations.isSome then [t] else []
  | some (.many ts) => ts.filter (fun t => t.functionDeclarations.isSome)

/-- Convert canonical declarations to vendor tool definitions, preferring
the JSON-schema field over the legacy parameters field over the empty
object, and skipping declarations without a (truthy) name. -/
def convertFunctionDeclarations (tools : List Tool) : List GlmToolDefinition :=
  tools.foldl
    (fun definitions tool =>
      match tool.functionDeclarations with
      | none => definitions
      | some decls =>
        decls.foldl
          (fun acc decl =>
            match decl.name with
            | none => acc
            | some nm =>
              if nm = "" then acc
              else
                acc ++ [{ type := "function",
                          function :=
                            { name := nm,
                              description := decl.description,
                              parameters :=
                                some ((decl.parametersJsonSchema).getD
                                  ((decl.parameters).getD (Json.obj []))) } }])
          definitions)
    []

/-- Filter declarations down to an allow list (an absent or empty allow
list keeps everything). -/
def normalizeAllowedFunctions (declarations : List FunctionDeclaration)
    (allowed : Option (List String)) : List FunctionDeclaration :=
  match allowed with
  | none => declarations
  | some [] => declarations
  | some l =>
    declarations.filter
      (fun d =>
        match d.name with
        | some nm => nm != "" && l.contains nm
        | none => false)

/-- Apply allow-list filtering to every tool and drop tools whose
declaration list becomes empty. -/
def applyFunctionFilters (tools : List Tool) (allowed : Option (List String)) :
    List Tool :=
  match allowed with
  | none => tools
  | some [] => tools
  | some _ =>
    (tools.map
      (fun tool =>
        match tool.functionDeclarations with
        | none => tool
        | some ds =>
          { tool with functionDeclarations := some (normalizeAllowedFunctions ds allowed) }))
      |>.filter (fun tool => (tool.functionDeclarations.getD []).length > 0)

/-- Truthy projection of an optional string (empty string drops out). -/
def optTruthy : Option String → Option String
  | some s => if s = "" then none else some s
  | none => none

/-- Placeholder text for an attachment part; the inline mime type wins
over the file mime type, and a falsy mime type drops the suffix. -/
def attachmentText (p : Part) : String :=
  match (optTruthy (p.inlineData.bind Blob.mimeType)) <|>
        (optTruthy (p.fileData.bind FileData.mimeType)) with
  | some d => "[Attachment omitted: " ++ d ++ "]"
  | none => "[Attachment omitted]"

/-- Accumulator of the normalizer's per-part loop: collected text pieces,
reasoning pieces, already-emitted standalone messages, and tool calls. -/
structure ConvState where
  textParts : List String
  reasoningParts : List String
  messages : List GlmMessage
  toolCalls : List GlmToolCall

/-- One iteration of the normalizer's part loop. -/
def convertPartStep (assistant : Bool) (st : ConvState) (p : Part) : ConvState :=
  if p.thought.getD false then
    if strTruthy p.text then
      { st with reasoningParts := st.reasoningParts ++ [p.text.getD ""] }
    else st
  else if strTruthy p.text then
    { st with textParts := st.textParts ++ [p.text.getD ""] }
  else if p.functionResponse.isSome && !assistant then
    match p.functionResponse with
    | some fr =>
      { st with messages := st.messages ++
          [{ role := GlmRole.tool,
             content := some (GlmContentValue.str
               (safeJsonStringify (fr.response.getD (Json.obj [])))),
             reasoning_content := none,
             name := fr.name,
             tool_call_id := some (fr.id.getD (fr.name.getD "tool")),
             tool_calls := none }] }
    | none => st
  else if p.functionCall.isSome && assistant then
    match p.functionCall with
    | some fc =>
      { st with toolCalls := st.toolCalls ++
          [{ id := fc.id,
             type := some "function",
             function := some
               { name := fc.name,
                 arguments := some (safeJsonStringify (fc.args.getD (Json.obj []))) } }] }
    | none => st
  else if p.inlineData.isSome || p.fileData.isSome then
    { st with textParts := st.textParts ++ [attachmentText p] }
  else st

/-- Run the normalizer's part loop over a part list. -/
def convertContentLoop (assistant : Bool) : List Part → ConvState → ConvState
  | [], st => st
  | p :: ps, st => convertContentLoop assistant ps (convertPartStep assistant st p)

/-- Normalize one canonical turn into vendor messages: standalone tool
messages first (user turns only), then at most one turn message. -/
def convertContent (content : Content) : List GlmMessage :=
  let assistant := content.role == some "model"
  let st := convertContentLoop assistant (content.parts.getD [])
    { textParts := [], reasoningParts := [], messages := [], toolCalls := [] }
  if assistant then
    if st.textParts.length > 0 || st.toolCalls.length > 0 || st.reasoningParts.length > 0 then
      st.messages ++
        [{ role := GlmRole.assistant,
           content := some (GlmContentValue.str
             (if st.textParts.length > 0 then String.intercalate "\n" st.textParts else "")),
           reasoning_content :=
             if st.reasoningParts.length > 0 then
               some (GlmContentValue.str (String.join st.reasoningParts))
             else none,
           name := none,
           tool_call_id := none,
           tool_calls := if st.toolCalls.length > 0 then some st.toolCalls else none }]
    else st.messages
  else
    if st.textParts.length > 0 then
      st.messages ++
        [{ role := GlmRole.user,
           content := some (GlmContentValue.str (String.intercalate "\n" st.textParts)),
           reasoning_content := none,
           name := none,
           tool_call_id := none,
           tool_calls := none }]
    else st.messages

/-- Entry of the host SDK's content-list union. -/
inductive Contentish where
  | str (s : String) : Contentish
  | content (c : Content) : Contentish
  | part (p : Part) : Contentish

/-- Host SDK contents argument: a single entry or an array of entries. -/
inductive ContentListUnion where
  | one (c : Contentish) : ContentListUnion
  | many (cs : List Contentish) : ContentListUnion

/-- Coerce one union entry to a canonical turn. -/
def toContentEntry : Contentish → Content
  | .str s => { role := some "user", parts := some [{ Part.empty with text := some s }] }
  | .content c => c
  | .part p => { role := some "user", parts := some [p] }

/-- Normalize the contents argument to a turn list; a falsy source (also
the bare empty string) yields the empty list. -/
def normalizeContents (source : Option ContentListUnion) : List Content :=
  match source with
  | none => []
  | some (.one (.str "")) => []
  | some (.one c) => [toContentEntry c]
  | some (.many cs) => cs.map toContentEntry

/-- Entry of the host SDK's array-form system instruction. -/
inductive StrOrPart where
  | str (s : String) : StrOrPart
  | part (p : Part) : StrOrPart

/-- Host SDK system-instruction union. -/
inductive SystemInstructionUnion where
  | str (s : String) : SystemInstructionUnion
  | content (c : Content) : SystemInstructionUnion
  | list (xs : List StrOrPart) : SystemInstructionUnion
  | part (p : Part) : SystemInstructionUnion

/-- Flatten a system instruction to one string; a structured value with
no parts array falls through to the host's default object coercion. -/
def extractSystemInstruction : SystemInstructionUnion → String
  | .str s => s
  | .content c =>
    match c.parts with
    | some ps => String.intercalate "\n" ((ps.map (fun p => p.text)).filterMap optTruthy)
    | none => "[object Object]"
  | .list xs =>
    String.intercalate "\n"
      (xs.map (fun x =>
        match x with
        | .str s => s
        | .part p => p.text.getD ""))
  | .part _ => "[object Object]"

/-- Tool-choice member of the canonical tool config. -/
structure FunctionCallingConfig where
  mode : Option FunctionCallingConfigMode
  allowedFunctionNames : Option (List String)

/-- Canonical tool config. -/
structure ToolConfig where
  functionCallingConfig : Option FunctionCallingConfig

/-- Canonical generation config (the fields this adapter reads). -/
structure GenerateContentConfig where
  temperature : Option Rat
  topP : Option Rat
  maxOutputTokens : Option Nat
  systemInstruction : Option SystemInstructionUnion
  tools : Option ToolListUnion
  toolConfig : Option ToolConfig

/-- Canonical request. -/
structure GenerateContentParameters where
  model : Option String
  contents : Option ContentListUnion
  config : Option GenerateContentConfig

/-- Build the flat vendor message list: optional system message first,
then every turn's normalized messages in order. -/
def buildMessages (request : GenerateContentParameters) : List GlmMessage :=
  let systemMessages :=
    match request.config.bind (fun c => c.systemInstruction) with
    | none => []
    | some (.str "") => []
    | some si =>
      [{ role := GlmRole.system,
         content := some (GlmContentValue.str (extractSystemInstruction si)),
         reasoning_content := none,
         name := none,
         tool_call_id := none,
         tool_calls := none }]
  systemMessages ++
    (normalizeContents request.contents).foldl (fun acc c => acc ++ convertContent c) []

/-- Constructor options of the generator (the fields the request builder
reads; transport-only options are out of scope here). -/
structure GlmOptions where
  apiKey : String
  userAgent : String
  endpoint : Option String
  clearThinking : Option Bool

/-- Compose the outbound vendor payload from a canonical request. -/
def toPayload (options : GlmOptions) (request : GenerateContentParameters)
    (stream : Bool) : GlmChatCompletionRequest :=
  let messages := buildMessages request
  let toolConfig := request.config.bind (fun c => c.toolConfig)
  let allowedFunctions :=
    (toolConfig.bind (fun tc => tc.functionCallingConfig)).bind
      (fun f => f.allowedFunctionNames)
  let tools0 := extractTools (request.config.bind (fun c => c.tools))
  let tools :=
    match allowedFunctions with
    | some l => if l.length > 0 then applyFunctionFilters tools0 allowedFunctions else tools0
    | none => tools0
  let toolDefinitions := convertFunctionDeclarations tools
  let toolChoice :=
    buildToolChoice
      ((toolConfig.bind (fun tc => tc.functionCallingConfig)).bind (fun f => f.mode))
      allowedFunctions
  { model := mapModelName request.model,
    messages := messages,
    temperature := request.config.bind (fun c => c.temperature),
    top_p := request.config.bind (fun c => c.topP),
    max_tokens := request.config.bind (fun c => c.maxOutputTokens),
    stream := stream,
    tools := if toolDefinitions.length > 0 then some toolDefinitions else none,
    tool_choice := toolChoice,
    thinking := some { type := "enabled",
                       clear_thinking := some (options.clearThinking.getD false) } }

/-- Translate one complete vendor response into the canonical response:
optional leading thought part, optional text part, then one function-call
part per vendor tool call, with the convenience functionCalls list. -/
def toGenerateContentResponse (response : GlmChatCompletionResponse) :
    GenerateContentResponse :=
  let choice : Option GlmChatCompletionChoice :=
    match response.choices with
    | some (c :: _) => some c
    | _ => none
  let message := choice.bind (fun c => c.message)
  let reasoningText := normalizeReasoningText (message.bind (fun m => m.reasoning_content))
  let messageText := normalizeContentText (message.bind (fun m => m.content))
  let functionCallDatas : List FunctionCallData :=
    ((message.bind (fun m => m.tool_calls)).getD []).map
      (fun toolCall =>
        { id := toolCall.id,
          name := toolCall.function.bind (fun f => f.name),
          args := some (parseArguments (toolCall.function.bind (fun f => f.arguments))) })
  let functionCallParts : List Part :=
    functionCallDatas.map (fun fc => { Part.empty with functionCall := some fc })
  let parts : List Part :=
    (if reasoningText = "" then [] else
      [{ Part.empty with text := some reasoningText, thought := some true }])
    ++ (if messageText = "" then [] else [{ Part.empty with text := some messageText }])
    ++ functionCallParts
  { responseId := response.id,
    modelVersion := response.model,
    candidates := some
      [{ content := { role := some "model", parts := some parts },
         finishReason := convertFinishReason (choice.bind (fun c => c.finish_reason)) }],
    usageMetadata := toUsageMetadata response.usage,
    functionCalls := some functionCallDatas }

/-- Outcome of the non-streaming call once the vendor body is decoded:
a response with at least one choice is translated, anything else is the
no-choices protocol error. -/
def generateContent (data : GlmChatCompletionResponse) :
    Except String GenerateContentResponse :=
  match data.choices with
  | some (_ :: _) => Except.ok (toGenerateContentResponse data)
  | _ => Except.error "GLM API returned no choices"

/-- Resolve the tracking key of a tool-call delta: id, else function
name, else the literal placeholder. -/
def resolveToolCallKey (call : GlmToolCall) : String :=
  match call.id with
  | some i => i
  | none =>
    match call.function.bind (fun f => f.name) with
    | some n => n
    | none => "tool"

/-- Fold one tool-call delta into the pending map: create the entry if
new, append the argument fragment, overwrite the name only when the
delta supplies one. -/
def applyToolCallDelta (pending : PendingMap) (call : GlmToolCall) : PendingMap :=
  let key := resolveToolCallKey call
  let existing := (mapGet pending key).getD
    { id := key, name := (call.function.bind (fun f => f.name)).getD "tool", args := "" }
  let updated :=
    { existing with
      args := existing.args ++ ((call.function.bind (fun f => f.arguments)).getD ""),
      name := (call.function.bind (fun f => f.name)).getD existing.name }
  mapSet pending key updated

/-- Fold a whole delta list into the pending map. -/
def applyToolCallDeltas (pending : PendingMap) (calls : List GlmToolCall) : PendingMap :=
  calls.foldl applyToolCallDelta pending

/-- Chunk-level fields threaded into every fragment built for a chunk. -/
structure ChunkMeta where
  id : Option String
  model : Option String
  usage : Option GlmUsage

/-- Meta projection of a chunk. -/
def chunkMeta (chunk : GlmChatCompletionChunk) : ChunkMeta :=
  { id := chunk.id, model := chunk.model, usage := chunk.usage }

/-- Content parts of one streamed choice: reasoning delta first (as a
thought part), then the text delta, each only when non-empty. -/
def contentFragmentParts (choice : GlmChatCompletionChunkChoice) : List Part :=
  let reasoningDelta := normalizeReasoningText (choice.delta.bind (fun d => d.reasoning_content))
  let textDelta := normalizeContentText (choice.delta.bind (fun d => d.content))
  (if reasoningDelta = "" then [] else
    [{ Part.empty with text := some reasoningDelta, thought := some true }])
  ++ (if textDelta = "" then [] else [{ Part.empty with text := some textDelta }])

/-- Process one streamed choice: emit the content fragment, fold the
tool-call deltas, then either flush pending tool calls (terminal finish
reason with at least one pending entry), or emit a content-free
finish-only fragment, or emit nothing more. -/
def chunkChoiceResponses (meta : ChunkMeta) (modelParam : String)
    (choice : GlmChatCompletionChunkChoice) (pending : PendingMap) :
    List GenerateContentResponse × PendingMap :=
  let parts := contentFragmentParts choice
  let contentResponses : List GenerateContentResponse :=
    if parts.length > 0 then
      [{ responseId := meta.id,
         modelVersion := some (meta.model.getD modelParam),
         candidates := some
           [{ content := { role := some "model", parts := some parts },
              finishReason := convertFinishReason choice.finish_reason }],
         usageMetadata := toUsageMetadata meta.usage,
         functionCalls := none }]
    else []
  let pending1 :=
    match choice.delta.bind (fun d => d.tool_calls) with
    | some calls => applyToolCallDeltas pending calls
    | none => pending
  let finishReason := convertFinishReason choice.finish_reason
  if (finishReason = some FinishReason.STOP ∨ finishReason = some FinishReason.MAX_TOKENS)
      ∧ pending1.length > 0 then
    let functionCallDatas : List FunctionCallData :=
      pending1.map (fun kv =>
        { id := some kv.2.id, name := some kv.2.name,
          args := some (parseArguments (some kv.2.args)) })
    let functionCallParts : List Part :=
      functionCallDatas.map (fun fc => { Part.empty with functionCall := some fc })
    (contentResponses ++
      [{ responseId := meta.id,
         modelVersion := some (meta.model.getD modelParam),
         candidates := some
           [{ content := { role := some "model", parts := some functionCallParts },
              finishReason := finishReason }],
         usageMetadata := toUsageMetadata meta.usage,
         functionCalls := some functionCallDatas }],
     [])
  else if parts.length = 0 ∧ finishReason.isSome then
    (contentResponses ++
      [{ responseId := meta.id,
         modelVersion := some (meta.model.getD modelParam),
         candidates := some
           [{ content := { role := some "model", parts := some [] },
              finishReason := finishReason }],
         usageMetadata := toUsageMetadata meta.usage,
         functionCalls := none }],
     pending1)
  else
    (contentResponses, pending1)

/-- Process the choices of one chunk in order, threading the pending map. -/
def chunkChoicesResponses (meta : ChunkMeta) (modelParam : String) :
    List GlmChatCompletionChunkChoice → PendingMap →
    List GenerateContentResponse × PendingMap
  | [], pending => ([], pending)
  | c :: cs, pending =>
    let r1 := chunkChoiceResponses meta modelParam c pending
    let r2 := chunkChoicesResponses meta modelParam cs r1.2
    (r1.1 ++ r2.1, r2.2)

/-- Process one decoded vendor chunk. -/
def chunkToResponses (chunk : GlmChatCompletionChunk) (modelParam : String)
    (pending : PendingMap) : List GenerateContentResponse × PendingMap :=
  chunkChoicesResponses (chunkMeta chunk) modelParam (chunk.choices.getD []) pending

/-- Process a sequence of decoded vendor chunks, threading the pending map. -/
def processChunks : List GlmChatCompletionChunk → String → PendingMap →
    List GenerateContentResponse × PendingMap
  | [], _, pending => ([], pending)
  | c :: cs, modelParam, pending =>
    let r1 := chunkToResponses c modelParam pending
    let r2 := processChunks cs modelParam r1.2
    (r1.1 ++ r2.1, r2.2)

/-- Responses the caller of a finished stream of chunks observes: the
pending map is local to the stream and is dropped at end of stream. -/
def streamChunks (chunks : List GlmChatCompletionChunk) (modelParam : String) :
    List GenerateContentResponse :=
  (processChunks chunks modelParam []).1

/-- Last value bound to a key in a parsed JSON object (the host parser
keeps the last duplicate). -/
def jget (j : Json) (k : String) : Option Json :=
  match j with
  | .obj fields => ((fields.reverse).find? (fun f => f.1 == k)).map (fun f => f.2)
  | _ => none

/-- String projection of a JSON value. -/
def jsonString : Json → Option String
  | .str s => some s
  | _ => none

/-- Natural-number projection of a JSON value (token counts). -/
def jsonNat : Json → Option Nat
  | .num m e => if 0 ≤ m ∧ 0 ≤ e then some (m.toNat * 10 ^ e.toNat) else none
  | _ => none

/-- Decode a vendor content value as the duck-typed source reads it:
strings pass through, arrays become block lists, null and absence become
absence (no other shapes are produced by the vendor). -/
def decodeContentValue : Option Json → Option GlmContentValue
  | some (.str s) => some (GlmContentValue.str s)
  | some (.arr items) =>
    some (GlmContentValue.blocks (items.map (fun b =>
      { type := (jget b "type").bind jsonString,
        text := (jget b "text").bind jsonString })))
  | _ => none

/-- Decode one tool-call delta object. -/
def decodeToolCall (j : Json) : GlmToolCall :=
  { id := (jget j "id").bind jsonString,
    type := (jget j "type").bind jsonString,
    function :=
      match jget j "function" with
      | some f =>
        match f with
        | .obj _ => some { name := (jget f "name").bind jsonString,
                           arguments := (jget f "arguments").bind jsonString }
        | _ => none
      | none => none }

/-- Decode the usage member of a chunk. -/
def decodeUsage : Option Json → Option GlmUsage
  | some u =>
    match u with
    | .obj _ => some
      { prompt_tokens := (jget u "prompt_tokens").bind jsonNat,
        completion_tokens := (jget u "completion_tokens").bind jsonNat,
        total_tokens := (jget u "total_tokens").bind jsonNat,
        reasoning_tokens := (jget u "reasoning_tokens").bind jsonNat,
        completion_tokens_details :=
          match jget u "completion_tokens_details" with
          | some d =>
            match d with
            | .obj _ => some { reasoning_tokens := (jget d "reasoning_tokens").bind jsonNat }
            | _ => none
          | none => none }
    | _ => none
  | none => none

/-- Decode one streamed choice object. -/
def decodeChunkChoice (j : Json) : GlmChatCompletionChunkChoice :=
  { index := ((jget j "index").bind jsonNat).getD 0,
    delta :=
      match jget j "delta" with
      | some d =>
        match d with
        | .obj _ => some
          { content := decodeContentValue (jget d "content"),
            reasoning_content := decodeContentValue (jget d "reasoning_content"),
            tool_calls :=
              match jget d "tool_calls" with
              | some (.arr xs) => some (xs.map decodeToolCall)
              | _ => none }
        | _ => none
      | none => none,
    finish_reason := (jget j "finish_reason").bind jsonString }

/-- Decode one parsed SSE payload into a vendor chunk, reading the same
fields the duck-typed source reads. -/
def decodeChunk (j : Json) : GlmChatCompletionChunk :=
  { id := (jget j "id").bind jsonString,
    choices :=
      match jget j "choices" with
      | some (.arr xs) => some (xs.map decodeChunkChoice)
      | _ => none,
    usage := decodeUsage (jget j "usage"),
    model := (jget j "model").bind jsonString }

/-- Whitespace removed by the host string trim. -/
def isTrimWs (c : Char) : Bool :=
  c = ' ' || c = '\t' || c = '\n' || c = '\r'

/-- Model of the host string trim (both ends). -/
def jsTrim (s : String) : String :=
  String.mk (((s.data.dropWhile isTrimWs).reverse.dropWhile isTrimWs).reverse)

/-- Model of the host startsWith. -/
def jsStartsWith (s p : String) : Bool :=
  p.data.isPrefixOf s.data

/-- Model of the host slice from a character index to the end. -/
def jsDrop (s : String) (n : Nat) : String :=
  String.mk (s.data.drop n)

/-- Split a character list at every newline (empty pieces kept). -/
def splitLinesGo : List Char → List Char → List String
  | [], acc => [String.mk acc.reverse]
  | c :: cs, acc =>
    if c = '\n' then String.mk acc.reverse :: splitLinesGo cs []
    else splitLinesGo cs (c :: acc)

/-- Model of the host split on a single newline. -/
def jsSplitLines (s : String) : List String :=
  splitLinesGo s.data []

/-- Split a character list at every double newline (empty pieces kept). -/
def splitRecordsGo : List Char → List Char → List String
  | '\n' :: '\n' :: cs, acc => String.mk acc.reverse :: splitRecordsGo cs []
  | c :: cs, acc => splitRecordsGo cs (c :: acc)
  | [], acc => [String.mk acc.reverse]

/-- Model of the host split on the double-newline record boundary. -/
def jsSplitRecords (s : String) : List String :=
  splitRecordsGo s.data []

/-- Process one (already trimmed) line of an SSE record: only data lines
with a non-empty, non-terminator payload are parsed; a payload that is
not valid JSON is logged and skipped, leaving the state untouched. -/
def processSseLine (line : String) (modelParam : String) (pending : PendingMap) :
    List GenerateContentResponse × PendingMap :=
  if !(jsStartsWith line "data:") then ([], pending)
  else
    let data := jsTrim (jsDrop line 5)
    if data = "" ∨ data = "[DONE]" then ([], pending)
    else
      match Json.parse data with
      | some parsed => chunkToResponses (decodeChunk parsed) modelParam pending
      | none => ([], pending)

/-- Process the lines of one SSE record in order. -/
def processSseLines : List String → String → PendingMap →
    List GenerateContentResponse × PendingMap
  | [], _, pending => ([], pending)
  | l :: ls, modelParam, pending =>
    let r1 := processSseLine l modelParam pending
    let r2 := processSseLines ls modelParam r1.2
    (r1.1 ++ r2.1, r2.2)

/-- Process one SSE record: split into lines, trim each, handle the data
lines. -/
def processSseChunk (chunk : String) (modelParam : String) (pending : PendingMap) :
    List GenerateContentResponse × PendingMap :=
  processSseLines ((jsSplitLines chunk).map (fun l => jsTrim l)) modelParam pending

/-- Process a sequence of SSE records, threading the pending map. -/
def processSseRecords : List String → String → PendingMap →
    List GenerateContentResponse × PendingMap
  | [], _, pending => ([], pending)
  | r :: rs, modelParam, pending =>
    let r1 := processSseChunk r modelParam pending
    let r2 := processSseRecords rs modelParam r1.2
    (r1.1 ++ r2.1, r2.2)

/-- Cut a stream of decoded text pieces into SSE records at double
newlines, flushing a non-blank trailing buffer as a final record. -/
def sseRecordsOfPieces (pieces : List String) : List String :=
  let folded := pieces.foldl
    (fun (acc : List String × String) piece =>
      let buffer := acc.2 ++ piece
      let segs := jsSplitRecords buffer
      (acc.1 ++ segs.dropLast, segs.getLastD ""))
    ([], "")
  if jsTrim folded.2 = "" then folded.1 else folded.1 ++ [folded.2]

/-- Stream decoding end to end over already-decoded text pieces: record
splitting, record processing, and the end-of-stream drop of any pending
tool-call state. -/
def streamFromSSE (pieces : List String) (modelParam : String) :
    List GenerateContentResponse :=
  (processSseRecords (sseRecordsOfPieces pieces) modelParam []).1

/-- Texts of the thought parts of a part list, in order. -/
def thoughtTexts (ps : List Part) : List String :=
  ps.filterMap (fun p => if p.thought.getD false then p.text else none)

/-- Texts of the non-thought text parts of a part list, in order. -/
def textTexts (ps : List Part) : List String :=
  ps.filterMap (fun p => if p.thought.getD false then none else p.text)

/-- Concrete non-streaming response of the translator scenario. -/
def c3ScenarioResponse : GlmChatCompletionResponse :=
  { id := some "r1", model := some "glm-4.7",
    choices := some [
      { index := 0,
        message := some
          { content := some (GlmContentValue.str "Hello world"),
            reasoning_content := some (GlmContentValue.str "thinking"),
            tool_calls := some [
              { id := some "c1", type := some "function",
                function := some
                  { name := some "do_work",
                    arguments := some "\x7b\"path\":\"foo\"\x7d" } }] },
        finish_reason := some "stop" }],
    usage := none }

/-- Concrete user turn exercising both text joining and thought dropping. -/
def c4Turn : Content :=
  { role := some "user", parts := some [
      { Part.empty with text := some "t", thought := some true },
      { Part.empty with text := some "a" },
      { Part.empty with text := some "" },
      { Part.empty with text := some "b" } ] }

/-- Concrete model turn used to witness the normalizer characterisation. -/
def c4WitnessTurn : Content :=
  { role := some "model", parts := some [
      { Part.empty with text := some "think", thought := some true },
      { Part.empty with text := some "a" },
      { Part.empty with text := some "" },
      { Part.empty with text := some "b" } ] }

/-- Chunk carrying one tool-call delta fragment and no finish reason. -/
def mkArgDeltaChunk (k : String) (nm : Option String) (frag : String) :
    GlmChatCompletionChunk :=
  { id := none, model := none, usage := none,
    choices := some [
      { index := 0, finish_reason := none,
        delta := some
          { content := none, reasoning_content := none,
            tool_calls := some [
              { id := some k, type := some "function",
                function := some { name := nm, arguments := some frag } }] } }] }

/-- Terminal chunk carrying only a stop finish reason. -/
def stopChunk : GlmChatCompletionChunk :=
  { id := none, model := none, usage := none,
    choices := some [
      { index := 0, finish_reason := some "stop", delta := none }] }

/-- Last function name supplied across a sequence of delta fragments. -/
def lastNameOpt (frags : List (Option String × String)) : Option String :=
  frags.foldl
    (fun acc nf =>
      match nf.1 with
      | some n => some n
      | none => acc)
    none

deriving instance DecidableEq for GlmContentBlock
deriving instance DecidableEq for GlmContentValue
deriving instance DecidableEq for GlmToolCallFunction
deriving instance DecidableEq for GlmToolCall
deriving instance DecidableEq for GlmMessage

/-- SSE record whose data payload is not valid JSON. -/
def badSseRecord : String := "data: \x7bnot json"

/-- SSE record carrying one valid chunk with a text delta "ok". -/
def goodSseRecord : String :=
  "data: \x7b\"choices\":[\x7b\"index\":0,\"delta\":\x7b\"content\":\"ok\"\x7d,\"finish_reason\":null\x7d]\x7d"

/-- Chunk-level fields of the tool-call flush scenario. -/
def flushScenarioMeta : ChunkMeta :=
  { id := some "s1", model := none, usage := none }

/-- Streamed choice carrying one whole tool-call delta and a stop finish. -/
def flushScenarioChoice : GlmChatCompletionChunkChoice :=
  { index := 0, finish_reason := some "stop",
    delta := some
      { content := none, reasoning_content := none,
        tool_calls := some [
          { id := some "t1", type := some "function",
            function := some
              { name := some "plan", arguments := some "\x7b\"x\":1\x7d" } }] } }

/-- Streamed choice carrying only a content-filter finish reason. -/
def safetyChoice : GlmChatCompletionChunkChoice :=
  { index := 0, finish_reason := some "content_filter", delta := none }

/-- One accumulated pending tool call used in the persistence scenarios. -/
def demoPending : PendingMap :=
  [("t1", { id := "t1", name := "plan", args := "\x7b\"x\":1\x7d" })]

/-- A response fragment free of tool calls: no functionCalls list and no
function-call part in any candidate. -/
def responseToolFree (r : GenerateContentResponse) : Prop :=
  r.functionCalls = none ∧
  ∀ c ∈ r.candidates.getD [], ∀ p ∈ c.content.parts.getD [], p.functionCall = none

/-- Model turn carrying only reasoning and a tool call (no text). -/
def c9Turn : Content :=
  { role := some "model", parts := some [
      { Part.empty with text := some "think", thought := some true },
      { Part.empty with functionCall := some {
          id := some "f1", name := some "do_work",
          args := some (Json.obj [("path", Json.str "foo")]) } } ] }

/-- C5: finish-reason conversion maps stop to STOP, length to MAX_TOKENS,
content_filter to SAFETY, tool_calls to STOP, and every other or absent
value to unset. -/
theorem convertFinishReason_total_spec :
    convertFinishReason (some "stop") = some FinishReason.STOP ∧
    convertFinishReason (some "length") = some FinishReason.MAX_TOKENS ∧
    convertFinishReason (some "content_filter") = some FinishReason.SAFETY ∧
    convertFinishReason (some "tool_calls") = some FinishReason.STOP ∧
    convertFinishReason none = none ∧
    (∀ s : String, s ≠ "stop" → s ≠ "length" → s ≠ "content_filter" →
      s ≠ "tool_calls" → convertFinishReason (some s) = none) := by
  refine ⟨rfl, rfl, rfl, rfl, rfl, ?_⟩
  intro s h1 h2 h3 h4
  unfold convertFinishReason
  split <;> simp_all

/-- Witness for C5 at the unmapped value "banana". -/
theorem convertFinishReason_total_spec_witness :
    convertFinishReason (some "banana") = none :=
  convertFinishReason_total_spec.2.2.2.2.2 "banana"
    (by decide) (by decide) (by decide) (by decide)

/-- C7: a vendor response with absent or empty choices makes the
non-streaming path fail with the no-choices protocol error, whose message
contains the text "no choices"; a response with at least one choice never
raises it. -/
theorem generateContent_noChoices_spec :
    (∀ data : GlmChatCompletionResponse,
      data.choices = none ∨ data.choices = some [] →
      generateContent data = Except.error "GLM API returned no choices") ∧
    (∃ pre post, "GLM API returned no choices" = pre ++ "no choices" ++ post) ∧
    (∀ (data : GlmChatCompletionResponse) c cs, data.choices = some (c :: cs) →
      generateContent data = Except.ok (toGenerateContentResponse data)) := by
  refine ⟨?_, ⟨"GLM API returned ", "", rfl⟩, ?_⟩
  · intro data h
    rcases h with h | h <;> simp [generateContent, h]
  · intro data c cs h
    simp [generateContent, h]

/-- Witness for C7 at a choice-free response and a one-choice response. -/
theorem generateContent_noChoices_spec_witness :
    generateContent { id := none, model := none, choices := none, usage := none } =
      Except.error "GLM API returned no choices" ∧
    generateContent c3ScenarioResponse =
      Except.ok (toGenerateContentResponse c3ScenarioResponse) :=
  ⟨generateContent_noChoices_spec.1 _ (Or.inl rfl),
   generateContent_noChoices_spec.2.2 _ _ _ rfl⟩

/-- C6: tool-choice mapping: AUTO or absent mode leaves the payload's
tool_choice absent, NONE maps to the literal none, ANY or VALIDATED with
exactly one allowed name forces that function, ANY or VALIDATED with zero
or several allowed names maps to required; and the built payload's
tool_choice is exactly this mapping of the request's tool config. -/
theorem buildToolChoice_payload_spec :
    (∀ allowed, buildToolChoice none allowed = none ∧
      buildToolChoice (some FunctionCallingConfigMode.AUTO) allowed = none) ∧
    (∀ allowed, buildToolChoice (some FunctionCallingConfigMode.NONE) allowed =
      some ToolChoice.none) ∧
    (∀ m n, m = FunctionCallingConfigMode.ANY ∨ m = FunctionCallingConfigMode.VALIDATED →
      buildToolChoice (some m) (some [n]) = some (ToolChoice.function n)) ∧
    (∀ m, m = FunctionCallingConfigMode.ANY ∨ m = FunctionCallingConfigMode.VALIDATED →
      buildToolChoice (some m) none = some ToolChoice.required) ∧
    (∀ m l, m = FunctionCallingConfigMode.ANY ∨ m = FunctionCallingConfigMode.VALIDATED →
      l.length ≠ 1 → buildToolChoice (some m) (some l) = some ToolChoice.required) ∧
    (∀ options request stream,
      (toPayload options request stream).tool_choice =
        buildToolChoice
          (((request.config.bind (fun c => c.toolConfig)).bind
              (fun tc => tc.functionCallingConfig)).bind (fun f => f.mode))
          (((request.config.bind (fun c => c.toolConfig)).bind
              (fun tc => tc.functionCallingConfig)).bind
            (fun f => f.allowedFunctionNames))) := by
  refine ⟨fun _ => ⟨rfl, rfl⟩, fun _ => rfl, ?_, ?_, ?_, fun _ _ _ => rfl⟩
  · intro m n h
    rcases h with h | h <;> subst h <;> rfl
  · intro m h
    rcases h with h | h <;> subst h <;> rfl
  · intro m l h hl
    rcases h with h | h <;> subst h <;>
      match l with
      | [] => rfl
      | [_] => exact absurd rfl hl
      | _ :: _ :: _ => rfl

/-- Witness for C6 at the forced-function, required and no-allow-list
cases. -/
theorem buildToolChoice_payload_spec_witness :
    buildToolChoice (some FunctionCallingConfigMode.ANY) (some ["f"]) =
      some (ToolChoice.function "f") ∧
    buildToolChoice (some FunctionCallingConfigMode.VALIDATED) (some ["f", "g"]) =
      some ToolChoice.required ∧
    buildToolChoice (some FunctionCallingConfigMode.ANY) none =
      some ToolChoice.required :=
  ⟨buildToolChoice_payload_spec.2.2.1 _ "f" (Or.inl rfl),
   buildToolChoice_payload_spec.2.2.2.2.1 _ _ (Or.inr rfl) (by decide),
   buildToolChoice_payload_spec.2.2.2.1 _ (Or.inl rfl)⟩

/-- C3: the translated candidate's parts are ordered thought (when the
reasoning text is non-empty), then text (when non-empty), then one
function-call part per vendor tool call with its argument string parsed
(raw-string fallback on failure), and the functionCalls list mirrors the
function-call parts. -/
theorem toGenerateContentResponse_order_spec :
    ∀ (response : GlmChatCompletionResponse) choice rest,
      response.choices = some (choice :: rest) →
      (toGenerateContentResponse response).candidates = some
        [{ content :=
            { role := some "model",
              parts := some
                ((if normalizeReasoningText
                      (choice.message.bind (fun m => m.reasoning_content)) = ""
                  then []
                  else [{ Part.empty with
                          text := some (normalizeReasoningText
                            (choice.message.bind (fun m => m.reasoning_content))),
                          thought := some true }])
                ++ (if normalizeContentText
                      (choice.message.bind (fun m => m.content)) = ""
                    then []
                    else [{ Part.empty with
                            text := some (normalizeContentText
                              (choice.message.bind (fun m => m.content))) }])
                ++ ((choice.message.bind (fun m => m.tool_calls)).getD []).map
                    (fun tc =>
                      { Part.empty with functionCall := some {
                          id := tc.id,
                          name := tc.function.bind (fun f => f.name),
                          args := some (parseArguments
                            (tc.function.bind (fun f => f.arguments))) } })) },
           finishReason := convertFinishReason choice.finish_reason }] ∧
      (toGenerateContentResponse response).functionCalls = some
        (((choice.message.bind (fun m => m.tool_calls)).getD []).map
          (fun tc =>
            { id := tc.id,
              name := tc.function.bind (fun f => f.name),
              args := some (parseArguments (tc.function.bind (fun f => f.arguments))) })) := by
  intro response choice rest h
  unfold toGenerateContentResponse
  rw [h]
  exact ⟨by simp [List.map_map, Function.comp], rfl⟩

/-- Witness for C3 at the concrete stop/Hello-world/thinking/do_work
scenario: exactly three parts in thought-text-call order and one mirrored
function call. -/
theorem toGenerateContentResponse_order_spec_witness :
    (toGenerateContentResponse c3ScenarioResponse).candidates = some
      [{ content :=
          { role := some "model",
            parts := some
              [{ Part.empty with text := some "thinking", thought := some true },
               { Part.empty with text := some "Hello world" },
               { Part.empty with functionCall := some {
                   id := some "c1", name := some "do_work",
                   args := some (Json.obj [("path", Json.str "foo")]) } }] },
         finishReason := some FinishReason.STOP }] ∧
    (toGenerateContentResponse c3ScenarioResponse).functionCalls = some
      [{ id := some "c1", name := some "do_work",
         args := some (Json.obj [("path", Json.str "foo")]) }] := by
  have h := toGenerateContentResponse_order_spec c3ScenarioResponse _ _ rfl
  exact ⟨h.1.trans (by rfl), h.2.trans (by rfl)⟩

/-- A data line whose payload fails to parse leaves the state untouched
and yields nothing (non-data lines and blank or terminator payloads are
also inert). -/
theorem processSseLine_skip (line modelParam : String) (pending : PendingMap)
    (h : Json.parse (jsTrim (jsDrop line 5)) = none) :
    processSseLine line modelParam pending = ([], pending) := by
  unfold processSseLine
  split
  · rfl
  · simp only [h]
    split <;> rfl

/-- Lines all carrying unparseable payloads process to nothing. -/
theorem processSseLines_skip :
    ∀ (lines : List String) (modelParam : String) (pending : PendingMap),
    (∀ line ∈ lines, Json.parse (jsTrim (jsDrop line 5)) = none) →
    processSseLines lines modelParam pending = ([], pending) := by
  intro lines
  induction lines with
  | nil => intro modelParam pending h; rfl
  | cons l ls ih =>
    intro modelParam pending h
    have h1 := processSseLine_skip l modelParam pending (h l (List.mem_cons_self l ls))
    have h2 := ih modelParam pending (fun line hl => h line (List.mem_cons_of_mem _ hl))
    simp [processSseLines, h1, h2]

/-- A record whose trimmed lines all carry unparseable payloads processes
to nothing. -/
theorem processSseChunk_skip (record modelParam : String) (pending : PendingMap)
    (h : ∀ line ∈ (jsSplitLines record).map (fun l => jsTrim l),
      Json.parse (jsTrim (jsDrop line 5)) = none) :
    processSseChunk record modelParam pending = ([], pending) :=
  processSseLines_skip _ _ _ h

/-- C8: an SSE record whose data payload is not valid JSON is skipped:
it yields no fragments and leaves the pending tool-call state untouched,
and a stream continues past it, so a malformed record followed by a valid
one still yields exactly the valid one's fragments. -/
theorem sse_malformed_record_spec :
    (∀ (line modelParam : String) (pending : PendingMap),
      Json.parse (jsTrim (jsDrop line 5)) = none →
      processSseLine line modelParam pending = ([], pending)) ∧
    (∀ (record modelParam : String) (pending : PendingMap),
      (∀ line ∈ (jsSplitLines record).map (fun l => jsTrim l),
        Json.parse (jsTrim (jsDrop line 5)) = none) →
      processSseChunk record modelParam pending = ([], pending)) ∧
    (∀ (bad : String) (rest : List String) (modelParam : String)
        (pending : PendingMap),
      (∀ line ∈ (jsSplitLines bad).map (fun l => jsTrim l),
        Json.parse (jsTrim (jsDrop line 5)) = none) →
      processSseRecords (bad :: rest) modelParam pending =
        processSseRecords rest modelParam pending) := by
  refine ⟨processSseLine_skip, processSseChunk_skip, ?_⟩
  intro bad rest modelParam pending h
  show (let r1 := processSseChunk bad modelParam pending
        let r2 := processSseRecords rest modelParam r1.2
        (r1.1 ++ r2.1, r2.2)) = processSseRecords rest modelParam pending
  rw [processSseChunk_skip bad modelParam pending h]
  simp

/-- Witness for C8: the concrete malformed record followed by the valid
record yields exactly the valid record's text fragment. -/
theorem sse_malformed_record_spec_witness :
    processSseRecords [badSseRecord, goodSseRecord] "glm" [] =
      processSseRecords [goodSseRecord] "glm" [] ∧
    (processSseRecords [goodSseRecord] "glm" []).1.length = 1 :=
  ⟨sse_malformed_record_spec.2.2 badSseRecord [goodSseRecord] "glm" []
      (by
        intro line hl
        rw [show (jsSplitLines badSseRecord).map (fun l => jsTrim l) =
          ["data: \x7bnot json"] from rfl] at hl
        simp at hl
        subst hl
        rfl),
   by rfl⟩

/-- C1: when the mapped finish reason is STOP or MAX_TOKENS and the
pending map (after folding this chunk's deltas) is non-empty, the choice
yields its content fragment (if any) followed by exactly one fragment
whose only parts are the pending function calls with their argument
strings parsed (raw-string fallback on failure), tagged with that finish
reason, and the pending map is cleared. -/
theorem chunkChoice_flush_spec :
    ∀ (meta : ChunkMeta) (modelParam : String)
      (choice : GlmChatCompletionChunkChoice) (pending pending1 : PendingMap)
      (fr : Option FinishReason),
      pending1 = (match choice.delta.bind (fun d => d.tool_calls) with
        | some calls => applyToolCallDeltas pending calls
        | none => pending) →
      fr = convertFinishReason choice.finish_reason →
      fr = some FinishReason.STOP ∨ fr = some FinishReason.MAX_TOKENS →
      pending1 ≠ [] →
      chunkChoiceResponses meta modelParam choice pending =
        ((if (contentFragmentParts choice).length > 0 then
            [{ responseId := meta.id,
               modelVersion := some (meta.model.getD modelParam),
               candidates := some
                 [{ content := { role := some "model",
                                 parts := some (contentFragmentParts choice) },
                    finishReason := fr }],
               usageMetadata := toUsageMetadata meta.usage,
               functionCalls := none }]
          else [])
        ++ [{ responseId := meta.id,
              modelVersion := some (meta.model.getD modelParam),
              candidates := some
                [{ content := { role := some "model",
                                parts := some (pending1.map (fun kv =>
                                  { Part.empty with functionCall := some {
                                      id := some kv.2.id, name := some kv.2.name,
                                      args := some (parseArguments (some kv.2.args)) } })) },
                   finishReason := fr }],
              usageMetadata := toUsageMetadata meta.usage,
              functionCalls := some (pending1.map (fun kv =>
                { id := some kv.2.id, name := some kv.2.name,
                  args := some (parseArguments (some kv.2.args)) })) }],
         ([] : PendingMap)) ∧
      (∀ (s : String) (j : Json), Json.parse s = some j → parseArguments (some s) = j) ∧
      (∀ s : String, s ≠ "" → Json.parse s = none →
        parseArguments (some s) = Json.obj [("raw", Json.str s)]) := by
  intro meta modelParam choice pending pending1 fr hp hf hor hne
  subst hp
  subst hf
  refine ⟨?_, ?_, ?_⟩
  · simp only [chunkChoiceResponses]
    split
    · simp [List.map_map, Function.comp]
    · rename_i hcond
      exact absurd ⟨hor, List.length_pos.mpr hne⟩ hcond
  · intro s j h
    by_cases hs : s = ""
    · subst hs
      rw [show Json.parse "" = none from rfl] at h
      cases h
    · simp [parseArguments, hs, h]
  · intro s hs h
    simp [parseArguments, hs, h]

/-- Witness for C1 at the concrete one-delta stop scenario: exactly one
flush fragment naming plan with parsed args, and a cleared map. -/
theorem chunkChoice_flush_spec_witness :
    chunkChoiceResponses flushScenarioMeta "glm" flushScenarioChoice [] =
      ([{ responseId := some "s1",
          modelVersion := some "glm",
          candidates := some
            [{ content :=
                { role := some "model",
                  parts := some
                    [{ Part.empty with functionCall := some {
                        id := some "t1", name := some "plan",
                        args := some (Json.obj [("x", Json.num 1 0)]) } }] },
               finishReason := some FinishReason.STOP }],
          usageMetadata := none,
          functionCalls := some
            [{ id := some "t1", name := some "plan",
               args := some (Json.obj [("x", Json.num 1 0)]) }] }],
       ([] : PendingMap)) :=
  ((chunkChoice_flush_spec flushScenarioMeta "glm" flushScenarioChoice []
      (applyToolCallDeltas []
        ((flushScenarioChoice.delta.bind (fun d => d.tool_calls)).getD []))
      (some FinishReason.STOP) rfl rfl (Or.inl rfl) (by decide)).1).trans (by rfl)

/-- Content fragments carry only text and thought parts. -/
theorem contentFragmentParts_fc_none (choice : GlmChatCompletionChunkChoice)
    (p : Part) (hp : p ∈ contentFragmentParts choice) : p.functionCall = none := by
  unfold contentFragmentParts at hp
  rcases List.mem_append.mp hp with h | h <;>
    (split at h <;> simp_all [Part.empty])

/-- A choice whose mapped finish reason is unset or SAFETY keeps the
accumulated pending map and emits only tool-free fragments. -/
theorem chunkChoiceResponses_safe (meta : ChunkMeta) (modelParam : String)
    (choice : GlmChatCompletionChunkChoice) (pending : PendingMap)
    (h : convertFinishReason choice.finish_reason = none ∨
         convertFinishReason choice.finish_reason = some FinishReason.SAFETY) :
    (chunkChoiceResponses meta modelParam choice pending).2 =
      (match choice.delta.bind (fun d => d.tool_calls) with
       | some calls => applyToolCallDeltas pending calls
       | none => pending) ∧
    ∀ r ∈ (chunkChoiceResponses meta modelParam choice pending).1,
      responseToolFree r := by
  have hnot : ¬((convertFinishReason choice.finish_reason = some FinishReason.STOP ∨
      convertFinishReason choice.finish_reason = some FinishReason.MAX_TOKENS) ∧
      (match choice.delta.bind (fun d => d.tool_calls) with
       | some calls => applyToolCallDeltas pending calls
       | none => pending).length > 0) := by
    rintro ⟨h2, _⟩
    rcases h with h | h <;> rcases h2 with h2 | h2 <;> rw [h] at h2 <;> cases h2
  simp only [chunkChoiceResponses]
  rw [if_neg hnot]
  split
  · refine ⟨rfl, ?_⟩
    intro r hr
    rcases List.mem_append.mp hr with hr | hr
    · split at hr
      · simp at hr
        subst hr
        refine ⟨rfl, ?_⟩
        intro c hc
        simp at hc
        subst hc
        intro p hp
        simp at hp
        exact contentFragmentParts_fc_none choice p hp
      · simp at hr
    · simp at hr
      subst hr
      refine ⟨rfl, ?_⟩
      intro c hc
      simp at hc
      subst hc
      intro p hp
      simp at hp
  · refine ⟨rfl, ?_⟩
    intro r hr
    split at hr
    · simp at hr
      subst hr
      refine ⟨rfl, ?_⟩
      intro c hc
      simp at hc
      subst hc
      intro p hp
      simp at hp
      exact contentFragmentParts_fc_none choice p hp
    · simp at hr

/-- Choice lists whose mapped finish reasons are all unset or SAFETY emit
only tool-free fragments. -/
theorem chunkChoicesResponses_safe (meta : ChunkMeta) (modelParam : String) :
    ∀ (choices : List GlmChatCompletionChunkChoice) (pending : PendingMap),
    (∀ choice ∈ choices,
      convertFinishReason choice.finish_reason = none ∨
      convertFinishReason choice.finish_reason = some FinishReason.SAFETY) →
    ∀ r ∈ (chunkChoicesResponses meta modelParam choices pending).1,
      responseToolFree r := by
  intro choices
  induction choices with
  | nil =>
    intro pending h r hr
    simp [chunkChoicesResponses] at hr
  | cons c cs ih =>
    intro pending h r hr
    simp only [chunkChoicesResponses] at hr
    rcases List.mem_append.mp hr with hr | hr
    · exact (chunkChoiceResponses_safe meta modelParam c pending
        (h c (List.mem_cons_self c cs))).2 r hr
    · exact ih _ (fun x hx => h x (List.mem_cons_of_mem _ hx)) r hr

/-- Chunk sequences whose mapped finish reasons are all unset or SAFETY
emit only tool-free fragments, at any starting pending state. -/
theorem processChunks_safe (modelParam : String) :
    ∀ (chunks : List GlmChatCompletionChunk) (pending : PendingMap),
    (∀ chunk ∈ chunks, ∀ choice ∈ chunk.choices.getD [],
      convertFinishReason choice.finish_reason = none ∨
      convertFinishReason choice.finish_reason = some FinishReason.SAFETY) →
    ∀ r ∈ (processChunks chunks modelParam pending).1, responseToolFree r := by
  intro chunks
  induction chunks with
  | nil =>
    intro pending h r hr
    simp [processChunks] at hr
  | cons c cs ih =>
    intro pending h r hr
    simp only [processChunks] at hr
    rcases List.mem_append.mp hr with hr | hr
    · exact chunkChoicesResponses_safe (chunkMeta c) modelParam (c.choices.getD [])
        pending (h c (List.mem_cons_self c cs)) r hr
    · exact ih _ (fun x hx => h x (List.mem_cons_of_mem _ hx)) r hr

/-- C10: a streamed choice whose mapped finish reason is SAFETY or unset
never flushes: the pending map keeps the deltas accumulated so far
(including this chunk's), no emitted fragment carries a function call,
and a stream with no STOP or MAX_TOKENS chunk never surfaces the
accumulated tool calls to the caller (the pending map is dropped at end
of stream). -/
theorem chunkChoice_noFlush_spec :
    (∀ (meta : ChunkMeta) (modelParam : String)
        (choice : GlmChatCompletionChunkChoice) (pending : PendingMap),
      convertFinishReason choice.finish_reason = none ∨
      convertFinishReason choice.finish_reason = some FinishReason.SAFETY →
      (chunkChoiceResponses meta modelParam choice pending).2 =
        (match choice.delta.bind (fun d => d.tool_calls) with
         | some calls => applyToolCallDeltas pending calls
         | none => pending) ∧
      ∀ r ∈ (chunkChoiceResponses meta modelParam choice pending).1,
        responseToolFree r) ∧
    (∀ (chunks : List GlmChatCompletionChunk) (modelParam : String),
      (∀ chunk ∈ chunks, ∀ choice ∈ chunk.choices.getD [],
        convertFinishReason choice.finish_reason = none ∨
        convertFinishReason choice.finish_reason = some FinishReason.SAFETY) →
      ∀ r ∈ streamChunks chunks modelParam, responseToolFree r) :=
  ⟨chunkChoiceResponses_safe,
   fun chunks modelParam h r hr => processChunks_safe modelParam chunks [] h r hr⟩

/-- Witness for C10 at a content-filter chunk over one accumulated tool
call: the pending entry persists and the emitted finish-only fragment is
tool-free. -/
theorem chunkChoice_noFlush_spec_witness :
    (chunkChoiceResponses flushScenarioMeta "glm" safetyChoice demoPending).2 =
      demoPending ∧
    responseToolFree
      { responseId := some "s1", modelVersion := some "glm",
        candidates := some
          [{ content := { role := some "model", parts := some [] },
             finishReason := some FinishReason.SAFETY }],
        usageMetadata := none, functionCalls := none } :=
  ⟨((chunkChoice_noFlush_spec.1 flushScenarioMeta "glm" safetyChoice demoPending
      (Or.inr rfl)).1).trans (by rfl),
   (chunkChoice_noFlush_spec.1 flushScenarioMeta "glm" safetyChoice demoPending
      (Or.inr rfl)).2 _
     (by
       rw [show (chunkChoiceResponses flushScenarioMeta "glm" safetyChoice
           demoPending).1 =
         [{ responseId := some "s1", modelVersion := some "glm",
            candidates := some
              [{ content := { role := some "model", parts := some [] },
                 finishReason := some FinishReason.SAFETY }],
            usageMetadata := none, functionCalls := none }] from rfl]
       exact List.mem_singleton.mpr rfl)⟩

/-- String append is associative (via the underlying character lists). -/
theorem strAppend_assoc (a b c : String) : a ++ b ++ c = a ++ (b ++ c) :=
  String.ext (by simp [String.data_append, List.append_assoc])

/-- Folding append from an appended seed factors the seed out. -/
theorem strFoldl_append (l : List String) :
    ∀ x y : String,
      l.foldl (fun r s => r ++ s) (x ++ y) = x ++ l.foldl (fun r s => r ++ s) y := by
  induction l with
  | nil => intro x y; rfl
  | cons a l ih =>
    intro x y
    show l.foldl (fun r s => r ++ s) (x ++ y ++ a) = _
    rw [strAppend_assoc, ih]
    rfl

/-- Joining a non-empty list peels off its head. -/
theorem strJoin_cons (a : String) (l : List String) :
    String.join (a :: l) = a ++ String.join l := by
  show l.foldl (fun r s => r ++ s) ("" ++ a) = a ++ String.join l
  rw [String.empty_append, ← String.append_empty a, strFoldl_append, String.append_empty]
  rfl

/-- One argument-fragment chunk folded into an existing pending entry:
nothing is emitted, the fragment is appended and the name overwritten
only when supplied. -/
theorem argChunk_step (k : String) (nm : Option String) (frag : String)
    (modelParam : String) (st : PendingToolCallState) :
    chunkToResponses (mkArgDeltaChunk k nm frag) modelParam [(k, st)] =
      ([], [(k, { id := st.id, name := nm.getD st.name,
                  args := st.args ++ frag })]) := by
  simp [chunkToResponses, chunkChoicesResponses, chunkChoiceResponses, chunkMeta,
    mkArgDeltaChunk, contentFragmentParts, normalizeContentText,
    normalizeReasoningText, applyToolCallDeltas, applyToolCallDelta,
    resolveToolCallKey, mapGet, mapSet, convertFinishReason]

/-- One argument-fragment chunk starting from the empty pending map:
nothing is emitted and the entry is created. -/
theorem argChunk_first (k : String) (nm : Option String) (frag : String)
    (modelParam : String) :
    chunkToResponses (mkArgDeltaChunk k nm frag) modelParam [] =
      ([], [(k, { id := k, name := nm.getD "tool", args := frag })]) := by
  cases nm <;>
    simp [chunkToResponses, chunkChoicesResponses, chunkChoiceResponses, chunkMeta,
      mkArgDeltaChunk, contentFragmentParts, normalizeContentText,
      normalizeReasoningText, applyToolCallDeltas, applyToolCallDelta,
      resolveToolCallKey, mapGet, mapSet, convertFinishReason,
      String.empty_append]

/-- Folding the last supplied name from any accumulator factors through
the default. -/
theorem lastNameOpt_foldl (frags : List (Option String × String)) :
    ∀ (acc : Option String) (dflt : String),
      (frags.foldl
        (fun a nf =>
          match nf.1 with
          | some n => some n
          | none => a)
        acc).getD dflt =
      (lastNameOpt frags).getD (acc.getD dflt) := by
  induction frags with
  | nil => intro acc dflt; rfl
  | cons nf rest ih =>
    intro acc dflt
    show (rest.foldl _
        (match nf.1 with
         | some n => some n
         | none => acc)).getD dflt = _
    rw [ih]
    show _ = (rest.foldl _
        (match nf.1 with
         | some n => some n
         | none => none)).getD (acc.getD dflt)
    rw [ih]
    cases nf.1 <;> rfl

/-- A run of argument-fragment chunks for one key folds into that key's
entry: nothing is emitted, the fragments are appended in order, the last
supplied name wins. -/
theorem processChunks_argDeltas (k modelParam : String) :
    ∀ (frags : List (Option String × String)) (st : PendingToolCallState),
      processChunks (frags.map (fun nf => mkArgDeltaChunk k nf.1 nf.2))
          modelParam [(k, st)] =
        ([], [(k, { id := st.id,
                    name := (lastNameOpt frags).getD st.name,
                    args := st.args ++ String.join (frags.map Prod.snd) })]) := by
  intro frags
  induction frags with
  | nil =>
    intro st
    have hj : st.args ++ String.join ([] : List String) = st.args :=
      String.append_empty st.args
    simp [processChunks, lastNameOpt, hj]
  | cons nf rest ih =>
    intro st
    simp only [List.map_cons, processChunks]
    rw [argChunk_step k nf.1 nf.2 modelParam st]
    rw [ih { id := st.id, name := nf.1.getD st.name, args := st.args ++ nf.2 }]
    refine congrArg (fun z => (([] : List GenerateContentResponse), [(k, z)])) ?_
    have hname : (lastNameOpt rest).getD (nf.1.getD st.name) =
        (lastNameOpt (nf :: rest)).getD st.name := by
      show _ = (rest.foldl _
          (match nf.1 with
           | some n => some n
           | none => none)).getD st.name
      rw [lastNameOpt_foldl]
      cases nf.1 <;> rfl
    have hargs : st.args ++ nf.2 ++ String.join (rest.map Prod.snd) =
        st.args ++ String.join ((nf :: rest).map Prod.snd) := by
      rw [List.map_cons, strJoin_cons, ← strAppend_assoc]
    rw [hname, hargs]
    rfl

/-- Chunk processing splits over list append, threading the pending map. -/
theorem processChunks_append (modelParam : String) :
    ∀ (xs ys : List GlmChatCompletionChunk) (pending : PendingMap),
      processChunks (xs ++ ys) modelParam pending =
        ((processChunks xs modelParam pending).1 ++
          (processChunks ys modelParam (processChunks xs modelParam pending).2).1,
         (processChunks ys modelParam (processChunks xs modelParam pending).2).2) := by
  intro xs
  induction xs with
  | nil => intro ys pending; rfl
  | cons x xs ih =>
    intro ys pending
    show ((chunkToResponses x modelParam pending).1 ++
          (processChunks (xs ++ ys) modelParam
            (chunkToResponses x modelParam pending).2).1,
         (processChunks (xs ++ ys) modelParam
            (chunkToResponses x modelParam pending).2).2) = _
    rw [ih]
    rw [← List.append_assoc]
    rfl

/-- The terminal stop chunk over a one-entry pending map flushes that
entry as a single tool-call fragment and clears the map. -/
theorem stopChunk_entry (modelParam k : String) (st : PendingToolCallState) :
    chunkToResponses stopChunk modelParam [(k, st)] =
      ([{ responseId := none, modelVersion := some modelParam,
          candidates := some
            [{ content :=
                { role := some "model",
                  parts := some
                    [{ Part.empty with functionCall := some {
                        id := some st.id, name := some st.name,
                        args := some (parseArguments (some st.args)) } }] },
               finishReason := some FinishReason.STOP }],
          usageMetadata := none,
          functionCalls := some
            [{ id := some st.id, name := some st.name,
               args := some (parseArguments (some st.args)) }] }],
       ([] : PendingMap)) := by
  simp [chunkToResponses, chunkChoicesResponses, chunkChoiceResponses, chunkMeta,
    stopChunk, contentFragmentParts, normalizeContentText, normalizeReasoningText,
    convertFinishReason, Part.empty, toUsageMetadata]

/-- A non-empty run of argument-fragment chunks for one key, starting
from the empty map, assembles the concatenated argument string under the
last supplied name. -/
theorem processChunks_split (k modelParam : String)
    (nf : Option String × String) (rest : List (Option String × String)) :
    processChunks ((nf :: rest).map (fun x => mkArgDeltaChunk k x.1 x.2))
        modelParam [] =
      ([], [(k, { id := k,
                  name := (lastNameOpt (nf :: rest)).getD "tool",
                  args := String.join ((nf :: rest).map Prod.snd) })]) := by
  show ((chunkToResponses (mkArgDeltaChunk k nf.1 nf.2) modelParam []).1 ++
        (processChunks (rest.map (fun x => mkArgDeltaChunk k x.1 x.2)) modelParam
          (chunkToResponses (mkArgDeltaChunk k nf.1 nf.2) modelParam []).2).1,
       (processChunks (rest.map (fun x => mkArgDeltaChunk k x.1 x.2)) modelParam
          (chunkToResponses (mkArgDeltaChunk k nf.1 nf.2) modelParam []).2).2) = _
  rw [argChunk_first k nf.1 nf.2 modelParam]
  rw [show (([], [(k, { id := k, name := nf.1.getD "tool", args := nf.2 })]) :
      List GenerateContentResponse × PendingMap).2 =
    [(k, { id := k, name := nf.1.getD "tool", args := nf.2 })] from rfl]
  rw [processChunks_argDeltas k modelParam rest
    { id := k, name := nf.1.getD "tool", args := nf.2 }]
  have hname : (lastNameOpt rest).getD (nf.1.getD "tool") =
      (lastNameOpt (nf :: rest)).getD "tool" := by
    show _ = (rest.foldl _
        (match nf.1 with
         | some n => some n
         | none => none)).getD "tool"
    rw [lastNameOpt_foldl]
    cases nf.1 <;> rfl
  have hargs : nf.2 ++ String.join (rest.map Prod.snd) =
      String.join ((nf :: rest).map Prod.snd) := by
    rw [List.map_cons, strJoin_cons]
  simp only [hname, hargs]
  rfl

/-- Processing a single chunk is chunk processing with an empty tail. -/
theorem processChunks_singleton (c : GlmChatCompletionChunk)
    (modelParam : String) (pending : PendingMap) :
    processChunks [c] modelParam pending =
      ((chunkToResponses c modelParam pending).1,
       (chunkToResponses c modelParam pending).2) := by
  show ((chunkToResponses c modelParam pending).1 ++
        (processChunks [] modelParam (chunkToResponses c modelParam pending).2).1,
       (processChunks [] modelParam (chunkToResponses c modelParam pending).2).2) = _
  rw [show ∀ p, processChunks [] modelParam p = ([], p) from fun _ => rfl]
  rw [List.append_nil]

/-- C2: streaming aggregation is split-invariant: a tool call whose
argument string arrives split across any non-empty sequence of delta
chunks for one key assembles, at flush time, to the same responses and
state as one chunk carrying the whole concatenated string under the last
supplied name, and the flushed fragment parses exactly that concatenated
string. -/
theorem streamSplit_invariance_spec :
    ∀ (k modelParam : String) (nf : Option String × String)
      (rest : List (Option String × String)),
      processChunks (((nf :: rest).map (fun x => mkArgDeltaChunk k x.1 x.2)) ++
          [stopChunk]) modelParam [] =
        processChunks
          [mkArgDeltaChunk k (lastNameOpt (nf :: rest))
            (String.join ((nf :: rest).map Prod.snd)),
           stopChunk] modelParam [] ∧
      (processChunks ((nf :: rest).map (fun x => mkArgDeltaChunk k x.1 x.2))
          modelParam []).2 =
        [(k, { id := k,
               name := (lastNameOpt (nf :: rest)).getD "tool",
               args := String.join ((nf :: rest).map Prod.snd) })] ∧
      (processChunks (((nf :: rest).map (fun x => mkArgDeltaChunk k x.1 x.2)) ++
          [stopChunk]) modelParam []).1 =
        [{ responseId := none, modelVersion := some modelParam,
           candidates := some
             [{ content :=
                 { role := some "model",
                   parts := some
                     [{ Part.empty with functionCall := some {
                         id := some k,
                         name := some ((lastNameOpt (nf :: rest)).getD "tool"),
                         args := some (parseArguments
                           (some (String.join ((nf :: rest).map Prod.snd)))) } }] },
                finishReason := some FinishReason.STOP }],
           usageMetadata := none,
           functionCalls := some
             [{ id := some k,
                name := some ((lastNameOpt (nf :: rest)).getD "tool"),
                args := some (parseArguments
                  (some (String.join ((nf :: rest).map Prod.snd)))) }] }] := by
  intro k modelParam nf rest
  have hL : processChunks (((nf :: rest).map (fun x => mkArgDeltaChunk k x.1 x.2)) ++
      [stopChunk]) modelParam [] =
      ([{ responseId := none, modelVersion := some modelParam,
          candidates := some
            [{ content :=
                { role := some "model",
                  parts := some
                    [{ Part.empty with functionCall := some {
                        id := some k,
                        name := some ((lastNameOpt (nf :: rest)).getD "tool"),
                        args := some (parseArguments
                          (some (String.join ((nf :: rest).map Prod.snd)))) } }] },
               finishReason := some FinishReason.STOP }],
          usageMetadata := none,
          functionCalls := some
            [{ id := some k,
               name := some ((lastNameOpt (nf :: rest)).getD "tool"),
               args := some (parseArguments
                 (some (String.join ((nf :: rest).map Prod.snd)))) }] }],
       ([] : PendingMap)) := by
    rw [processChunks_append, processChunks_split, processChunks_singleton,
      stopChunk_entry]
    rfl
  have hR : processChunks
      [mkArgDeltaChunk k (lastNameOpt (nf :: rest))
        (String.join ((nf :: rest).map Prod.snd)),
       stopChunk] modelParam [] =
      ([{ responseId := none, modelVersion := some modelParam,
          candidates := some
            [{ content :=
                { role := some "model",
                  parts := some
                    [{ Part.empty with functionCall := some {
                        id := some k,
                        name := some ((lastNameOpt (nf :: rest)).getD "tool"),
                        args := some (parseArguments
                          (some (String.join ((nf :: rest).map Prod.snd)))) } }] },
               finishReason := some FinishReason.STOP }],
          usageMetadata := none,
          functionCalls := some
            [{ id := some k,
               name := some ((lastNameOpt (nf :: rest)).getD "tool"),
               args := some (parseArguments
                 (some (String.join ((nf :: rest).map Prod.snd)))) }] }],
       ([] : PendingMap)) := by
    show ((chunkToResponses (mkArgDeltaChunk k (lastNameOpt (nf :: rest))
            (String.join ((nf :: rest).map Prod.snd))) modelParam []).1 ++
          (processChunks [stopChunk] modelParam
            (chunkToResponses (mkArgDeltaChunk k (lastNameOpt (nf :: rest))
              (String.join ((nf :: rest).map Prod.snd))) modelParam []).2).1,
         (processChunks [stopChunk] modelParam
            (chunkToResponses (mkArgDeltaChunk k (lastNameOpt (nf :: rest))
              (String.join ((nf :: rest).map Prod.snd))) modelParam []).2).2) = _
    rw [argChunk_first]
    show ([] ++ (processChunks [stopChunk] modelParam
            [(k, { id := k,
                   name := (lastNameOpt (nf :: rest)).getD "tool",
                   args := String.join ((nf :: rest).map Prod.snd) })]).1,
          (processChunks [stopChunk] modelParam
            [(k, { id := k,
                   name := (lastNameOpt (nf :: rest)).getD "tool",
                   args := String.join ((nf :: rest).map Prod.snd) })]).2) = _
    rw [processChunks_singleton, stopChunk_entry]
    rfl
  exact ⟨hL.trans hR.symm,
    congrArg Prod.snd (processChunks_split k modelParam nf rest),
    congrArg Prod.fst hL⟩

/-- A string differs from the empty string exactly when its character
list is non-empty. -/
theorem strNe_empty_iff_data (t : String) : t ≠ "" ↔ t.data ≠ [] := by
  rw [ne_eq, ne_eq, String.ext_iff]

/-- Joining drops empty strings invisibly. -/
theorem strJoin_filter_ne (l : List String) :
    String.join (l.filter (fun t => t != "")) = String.join l := by
  induction l with
  | nil => rfl
  | cons t l ih =>
    by_cases ht : t = ""
    · subst ht
      rw [strJoin_cons, String.empty_append]
      simpa using ih
    · rw [strJoin_cons, ← ih]
      have : (t :: l).filter (fun t => t != "") = t :: l.filter (fun t => t != "") := by
        simp [List.filter_cons, ht]
      rw [this, strJoin_cons]

/-- The non-empty entries vanish exactly when the join is empty. -/
theorem strFilter_eq_nil_iff_join (l : List String) :
    l.filter (fun t => t != "") = [] ↔ String.join l = "" := by
  induction l with
  | nil => exact ⟨fun _ => rfl, fun _ => rfl⟩
  | cons t l ih =>
    by_cases ht : t = ""
    · subst ht
      rw [strJoin_cons, String.empty_append]
      simpa using ih
    · constructor
      · intro h
        exfalso
        rw [List.filter_cons, if_pos (by simpa using ht)] at h
        cases h
      · intro h
        exfalso
        rw [strJoin_cons] at h
        have hd := congrArg String.data h
        rw [String.data_append] at hd
        rcases List.append_eq_nil.mp hd with ⟨h1, _⟩
        exact (strNe_empty_iff_data t).mp ht h1

/-- One normalizer step appends exactly the part's non-empty non-thought
text to the text accumulator (attachment-free parts). -/
theorem convertPartStep_textParts (assistant : Bool) (st : ConvState) (p : Part)
    (hin : p.inlineData = none) (hfd : p.fileData = none) :
    (convertPartStep assistant st p).textParts =
      st.textParts ++ (textTexts [p]).filter (fun t => t != "") := by
  rcases p with ⟨text, thought, fc, fr, inl, fd⟩
  obtain rfl : inl = none := hin
  obtain rfl : fd = none := hfd
  rcases thought with _ | b
  · rcases text with _ | s
    · rcases fr with _ | fr0 <;> rcases fc with _ | fc0 <;>
        (simp [convertPartStep, textTexts, strTruthy]) <;> (try split) <;> (try split) <;> rfl
    · by_cases hs : s = ""
      · subst hs
        rcases fr with _ | fr0 <;> rcases fc with _ | fc0 <;>
          (simp [convertPartStep, textTexts, strTruthy]) <;> (try split) <;> (try split) <;> rfl
      · simp [convertPartStep, textTexts, strTruthy, hs, List.filter_cons]
  · rcases b with _ | _
    · rcases text with _ | s
      · rcases fr with _ | fr0 <;> rcases fc with _ | fc0 <;>
          (simp [convertPartStep, textTexts, strTruthy]) <;> (try split) <;> (try split) <;> rfl
      · by_cases hs : s = ""
        · subst hs
          rcases fr with _ | fr0 <;> rcases fc with _ | fc0 <;>
            (simp [convertPartStep, textTexts, strTruthy]) <;> (try split) <;> (try split) <;> rfl
        · simp [convertPartStep, textTexts, strTruthy, hs, List.filter_cons]
    · rcases text with _ | s <;>
        (simp [convertPartStep, textTexts, strTruthy]) <;> (try split) <;> (try split) <;> rfl

/-- One normalizer step appends exactly the part's non-empty thought text
to the reasoning accumulator (attachment-free parts). -/
theorem convertPartStep_reasoningParts (assistant : Bool) (st : ConvState) (p : Part)
    (hin : p.inlineData = none) (hfd : p.fileData = none) :
    (convertPartStep assistant st p).reasoningParts =
      st.reasoningParts ++ (thoughtTexts [p]).filter (fun t => t != "") := by
  rcases p with ⟨text, thought, fc, fr, inl, fd⟩
  obtain rfl : inl = none := hin
  obtain rfl : fd = none := hfd
  rcases thought with _ | b
  · rcases text with _ | s
    · rcases fr with _ | fr0 <;> rcases fc with _ | fc0 <;>
        (simp [convertPartStep, thoughtTexts, strTruthy]) <;> (try split) <;> (try split) <;> rfl
    · by_cases hs : s = ""
      · subst hs
        rcases fr with _ | fr0 <;> rcases fc with _ | fc0 <;>
          (simp [convertPartStep, thoughtTexts, strTruthy]) <;> (try split) <;> (try split) <;> rfl
      · simp [convertPartStep, thoughtTexts, strTruthy, hs]
  · rcases b with _ | _
    · rcases text with _ | s
      · rcases fr with _ | fr0 <;> rcases fc with _ | fc0 <;>
          (simp [convertPartStep, thoughtTexts, strTruthy]) <;> (try split) <;> (try split) <;> rfl
      · by_cases hs : s = ""
        · subst hs
          rcases fr with _ | fr0 <;> rcases fc with _ | fc0 <;>
            (simp [convertPartStep, thoughtTexts, strTruthy]) <;> (try split) <;> (try split) <;> rfl
        · simp [convertPartStep, thoughtTexts, strTruthy, hs]
    · rcases text with _ | s
      · (simp [convertPartStep, thoughtTexts, strTruthy]) <;> (try split) <;> (try split) <;> rfl
      · by_cases hs : s = ""
        · subst hs
          (simp [convertPartStep, thoughtTexts, strTruthy]) <;> (try split) <;> (try split) <;> rfl
        · simp [convertPartStep, thoughtTexts, strTruthy, hs, List.filter_cons]

/-- In assistant turns the normalizer step never emits a standalone
message. -/
theorem convertPartStep_messages_assistant (st : ConvState) (p : Part) :
    (convertPartStep true st p).messages = st.messages := by
  unfold convertPartStep
  split
  · split <;> rfl
  · split
    · rfl
    · split
      · rename_i hcond
        simp at hcond
      · split
        · split <;> rfl
        · split <;> rfl

/-- A normalizer step leaves the message list unchanged or appends one
tool message (role tool, plain string content, no reasoning). -/
theorem convertPartStep_messages (assistant : Bool) (st : ConvState) (p : Part) :
    (convertPartStep assistant st p).messages = st.messages ∨
    ∃ tm, (convertPartStep assistant st p).messages = st.messages ++ [tm] ∧
      tm.role = GlmRole.tool ∧
      (∃ s, tm.content = some (GlmContentValue.str s)) ∧
      tm.reasoning_content = none := by
  unfold convertPartStep
  split
  · split <;> exact Or.inl rfl
  · split
    · exact Or.inl rfl
    · split
      · split
        · exact Or.inr ⟨_, rfl, rfl, ⟨_, rfl⟩, rfl⟩
        · exact Or.inl rfl
      · split
        · split <;> exact Or.inl rfl
        · split <;> exact Or.inl rfl

/-- Running the loop over an assistant turn's parts leaves the message
list unchanged. -/
theorem convertContentLoop_messages_assistant :
    ∀ (ps : List Part) (st : ConvState),
      (convertContentLoop true ps st).messages = st.messages := by
  intro ps
  induction ps with
  | nil => intro st; rfl
  | cons p rest ih =>
    intro st
    show (convertContentLoop true rest (convertPartStep true st p)).messages = _
    rw [ih, convertPartStep_messages_assistant]

/-- Running the loop appends only tool messages to the message list. -/
theorem convertContentLoop_messages (assistant : Bool) :
    ∀ (ps : List Part) (st : ConvState),
      ∃ ms, (convertContentLoop assistant ps st).messages = st.messages ++ ms ∧
        ∀ m ∈ ms, m.role = GlmRole.tool ∧
          (∃ s, m.content = some (GlmContentValue.str s)) ∧
          m.reasoning_content = none := by
  intro ps
  induction ps with
  | nil =>
    intro st
    exact ⟨[], by simp [convertContentLoop], by simp⟩
  | cons p rest ih =>
    intro st
    obtain ⟨ms, hms, hall⟩ := ih (convertPartStep assistant st p)
    rcases convertPartStep_messages assistant st p with h | ⟨tm, htm, hrole, hcontent, hreason⟩
    · refine ⟨ms, ?_, hall⟩
      show (convertContentLoop assistant rest (convertPartStep assistant st p)).messages = _
      rw [hms, h]
    · refine ⟨tm :: ms, ?_, ?_⟩
      · show (convertContentLoop assistant rest (convertPartStep assistant st p)).messages = _
        rw [hms, htm, List.append_assoc]
        rfl
      · intro m hm
        rcases List.mem_cons.mp hm with rfl | hm
        · exact ⟨hrole, hcontent, hreason⟩
        · exact hall m hm

/-- The loop's text accumulator collects exactly the non-empty
non-thought texts, in order (attachment-free parts). -/
theorem convertContentLoop_textParts (assistant : Bool) :
    ∀ (ps : List Part) (st : ConvState),
      (∀ p ∈ ps, p.inlineData = none ∧ p.fileData = none) →
      (convertContentLoop assistant ps st).textParts =
        st.textParts ++ (textTexts ps).filter (fun t => t != "") := by
  intro ps
  induction ps with
  | nil => intro st h; simp [convertContentLoop, textTexts]
  | cons p rest ih =>
    intro st h
    show (convertContentLoop assistant rest (convertPartStep assistant st p)).textParts = _
    rw [ih _ (fun x hx => h x (List.mem_cons_of_mem _ hx)),
      convertPartStep_textParts assistant st p (h p (List.mem_cons_self p rest)).1
        (h p (List.mem_cons_self p rest)).2,
      List.append_assoc, ← List.filter_append]
    congr 2
    simp only [textTexts, List.filterMap_cons, List.filterMap_nil]
    cases hf : (if p.thought.getD false then none else p.text) <;> simp [hf]

/-- The loop's reasoning accumulator collects exactly the non-empty
thought texts, in order (attachment-free parts). -/
theorem convertContentLoop_reasoningParts (assistant : Bool) :
    ∀ (ps : List Part) (st : ConvState),
      (∀ p ∈ ps, p.inlineData = none ∧ p.fileData = none) →
      (convertContentLoop assistant ps st).reasoningParts =
        st.reasoningParts ++ (thoughtTexts ps).filter (fun t => t != "") := by
  intro ps
  induction ps with
  | nil => intro st h; simp [convertContentLoop, thoughtTexts]
  | cons p rest ih =>
    intro st h
    show (convertContentLoop assistant rest (convertPartStep assistant st p)).reasoningParts = _
    rw [ih _ (fun x hx => h x (List.mem_cons_of_mem _ hx)),
      convertPartStep_reasoningParts assistant st p (h p (List.mem_cons_self p rest)).1
        (h p (List.mem_cons_self p rest)).2,
      List.append_assoc, ← List.filter_append]
    congr 2
    simp only [thoughtTexts, List.filterMap_cons, List.filterMap_nil]
    cases hf : (if p.thought.getD false then p.text else none) <;> simp [hf]

/-- Counterexample to C4 as stated: in the concrete user turn
[Thought "t", Text "a", Text "", Text "b"] the emitted message's content
is "a\nb", not the claimed newline join "a\n\nb" of all Text parts'
texts, and the thought text "t" appears in no reasoning_content (the
message carries none). -/
theorem convertContent_preservation_counterexample :
    convertContent c4Turn =
      [{ role := GlmRole.user,
         content := some (GlmContentValue.str "a\nb"),
         reasoning_content := none, name := none, tool_call_id := none,
         tool_calls := none }] ∧
    String.intercalate "\n" (textTexts (c4Turn.parts.getD [])) = "a\n\nb" ∧
    String.join (thoughtTexts (c4Turn.parts.getD [])) = "t" ∧
    some (GlmContentValue.str "a\nb") ≠ some (GlmContentValue.str "a\n\nb") ∧
    (none : Option GlmContentValue) ≠ some (GlmContentValue.str "t") :=
  ⟨rfl, rfl, rfl, by decide, by decide⟩

/-- Helper: the emitted content formula is uniform in the accumulated
text list. -/
theorem strIntercalate_ite (l : List String) :
    (if l.length > 0 then String.intercalate "\n" l else "") =
      String.intercalate "\n" l := by
  cases l with
  | nil => rfl
  | cons a t => simp

/-- C4 (amended): for attachment-free turns, normalization emits, for a
model turn, one assistant message whose reasoning_content is the
concatenation of all Thought texts (omitted when that concatenation is
empty) and whose content is the non-empty Text-part texts joined with a
single newline; for a user turn the emitted user message's content is the
same newline join and Thought parts are dropped (no message carries
reasoning). -/
theorem convertContent_preservation_amended :
    ∀ (c : Content) (ps : List Part) (m : GlmMessage),
      c.parts = some ps →
      (∀ p ∈ ps, p.inlineData = none ∧ p.fileData = none) →
      (((c.role == some "model") = true →
        m ∈ convertContent c →
        m.content = some (GlmContentValue.str
          (String.intercalate "\n" ((textTexts ps).filter (fun t => t != "")))) ∧
        m.reasoning_content =
          (if String.join (thoughtTexts ps) = "" then none
           else some (GlmContentValue.str (String.join (thoughtTexts ps))))) ∧
      ((c.role == some "model") = false →
        m ∈ convertContent c →
        m.reasoning_content = none ∧
        (m.role = GlmRole.user →
          m.content = some (GlmContentValue.str
            (String.intercalate "\n" ((textTexts ps).filter (fun t => t != ""))))))) := by
  intro c ps m hps hatt
  constructor
  · intro hrole hm
    simp only [convertContent, hps, hrole, Option.getD_some, if_true] at hm
    rw [convertContentLoop_messages_assistant ps] at hm
    rw [convertContentLoop_textParts true ps
      { textParts := [], reasoningParts := [], messages := [], toolCalls := [] } hatt,
      convertContentLoop_reasoningParts true ps
      { textParts := [], reasoningParts := [], messages := [], toolCalls := [] } hatt]
      at hm
    simp only [List.nil_append] at hm
    split at hm
    · simp at hm
      subst hm
      refine ⟨?_, ?_⟩
      · show some (GlmContentValue.str _) = _
        rw [strIntercalate_ite]
      · by_cases hj : String.join (thoughtTexts ps) = ""
        · rw [if_pos hj]
          have hfil : (thoughtTexts ps).filter (fun t => t != "") = [] :=
            (strFilter_eq_nil_iff_join _).mpr hj
          show (if _ > 0 then _ else _) = _
          rw [hfil]
          rfl
        · rw [if_neg hj]
          have hfil : (thoughtTexts ps).filter (fun t => t != "") ≠ [] :=
            fun h => hj ((strFilter_eq_nil_iff_join _).mp h)
          show (if _ > 0 then _ else _) = _
          rw [if_pos (List.length_pos.mpr hfil), strJoin_filter_ne]
    · simp at hm
  · intro hrole hm
    simp only [convertContent, hps, hrole, Option.getD_some, Bool.false_eq_true,
      if_false] at hm
    obtain ⟨ms, hms, hall⟩ := convertContentLoop_messages (c.role == some "model") ps
      { textParts := [], reasoningParts := [], messages := [], toolCalls := [] }
    rw [hrole] at hms
    rw [hms] at hm
    rw [convertContentLoop_textParts false ps
      { textParts := [], reasoningParts := [], messages := [], toolCalls := [] } hatt]
      at hm
    simp only [List.nil_append] at hm
    have toolCase : ∀ m0 ∈ ms, m0.reasoning_content = none ∧
        (m0.role = GlmRole.user →
          m0.content = some (GlmContentValue.str
            (String.intercalate "\n" ((textTexts ps).filter (fun t => t != ""))))) := by
      intro m0 hm0
      have hmsg := hall m0 hm0
      refine ⟨hmsg.2.2, fun hru => ?_⟩
      rw [hmsg.1] at hru
      exact absurd hru (by decide)
    split at hm
    · rcases List.mem_append.mp hm with hm | hm
      · exact toolCase m hm
      · simp at hm
        subst hm
        exact ⟨rfl, fun _ => rfl⟩
    · exact toolCase m hm

/-- Witness for the amended C4 at the concrete model turn
[Thought "think", Text "a", Text "", Text "b"]: reasoning "think", content
"a\nb". -/
theorem convertContent_preservation_amended_witness :
    ({ role := GlmRole.assistant,
       content := some (GlmContentValue.str "a\nb"),
       reasoning_content := some (GlmContentValue.str "think"),
       name := none, tool_call_id := none,
       tool_calls := none } : GlmMessage).content =
      some (GlmContentValue.str "a\nb") ∧
    ({ role := GlmRole.assistant,
       content := some (GlmContentValue.str "a\nb"),
       reasoning_content := some (GlmContentValue.str "think"),
       name := none, tool_call_id := none,
       tool_calls := none } : GlmMessage).reasoning_content =
      some (GlmContentValue.str "think") := by
  have h := (convertContent_preservation_amended c4WitnessTurn
      (c4WitnessTurn.parts.getD [])
      { role := GlmRole.assistant,
        content := some (GlmContentValue.str "a\nb"),
        reasoning_content := some (GlmContentValue.str "think"),
        name := none, tool_call_id := none, tool_calls := none }
      rfl
      (by
        intro p hp
        simp [c4WitnessTurn, Part.empty] at hp
        rcases hp with rfl | rfl | rfl | rfl <;> exact ⟨rfl, rfl⟩)).1 rfl
      (by
        rw [show convertContent c4WitnessTurn =
          [{ role := GlmRole.assistant,
             content := some (GlmContentValue.str "a\nb"),
             reasoning_content := some (GlmContentValue.str "think"),
             name := none, tool_call_id := none, tool_calls := none }] from rfl]
        exact List.mem_singleton.mpr rfl)
  exact ⟨h.1, h.2⟩

/-- C9: every message the normalizer emits carries a plain string content
(never null or omitted), and an assistant message of a turn that
contributed no text has content exactly the empty string. -/
theorem convertContent_content_nonNull_spec :
    ∀ (c : Content) (m : GlmMessage), m ∈ convertContent c →
      (∃ s, m.content = some (GlmContentValue.str s)) ∧
      (m.role = GlmRole.assistant →
        (convertContentLoop true (c.parts.getD [])
          { textParts := [], reasoningParts := [], messages := [],
            toolCalls := [] }).textParts = [] →
        m.content = some (GlmContentValue.str "")) := by
  intro c m hm
  by_cases hrole : (c.role == some "model") = true
  · simp only [convertContent, hrole, if_true] at hm
    rw [convertContentLoop_messages_assistant] at hm
    split at hm
    · simp at hm
      subst hm
      refine ⟨⟨_, rfl⟩, fun _ hempty => ?_⟩
      show some (GlmContentValue.str _) = _
      rw [hempty]
      rfl
    · simp at hm
  · simp only [Bool.not_eq_true] at hrole
    simp only [convertContent, hrole, Bool.false_eq_true, if_false] at hm
    obtain ⟨ms, hms, hall⟩ := convertContentLoop_messages (c.role == some "model")
      (c.parts.getD [])
      { textParts := [], reasoningParts := [], messages := [], toolCalls := [] }
    rw [hrole] at hms
    rw [hms] at hm
    simp only [List.nil_append] at hm
    have toolCase : ∀ m0 ∈ ms,
        (∃ s, m0.content = some (GlmContentValue.str s)) ∧
        (m0.role = GlmRole.assistant →
          (convertContentLoop true (c.parts.getD [])
            { textParts := [], reasoningParts := [], messages := [],
              toolCalls := [] }).textParts = [] →
          m0.content = some (GlmContentValue.str "")) := by
      intro m0 hm0
      have hmsg := hall m0 hm0
      refine ⟨hmsg.2.1, fun hru _ => ?_⟩
      rw [hmsg.1] at hru
      exact absurd hru (by decide)
    split at hm
    · rcases List.mem_append.mp hm with hm | hm
      · exact toolCase m hm
      · simp at hm
        subst hm
        exact ⟨⟨_, rfl⟩, fun hru _ => by simp at hru⟩
    · exact toolCase m hm

/-- Witness for C9 at the model turn carrying only reasoning and a tool
call: the emitted assistant message's content is the empty string. -/
theorem convertContent_content_nonNull_spec_witness :
    (∃ s, ({ role := GlmRole.assistant,
             content := some (GlmContentValue.str ""),
             reasoning_content := some (GlmContentValue.str "think"),
             name := none, tool_call_id := none,
             tool_calls := some [
               { id := some "f1", type := some "function",
                 function := some
                   { name := some "do_work",
                     arguments := some "\x7b\"path\":\"foo\"\x7d" } }] } :
        GlmMessage).content = some (GlmContentValue.str s)) ∧
    ({ role := GlmRole.assistant,
       content := some (GlmContentValue.str ""),
       reasoning_content := some (GlmContentValue.str "think"),
       name := none, tool_call_id := none,
       tool_calls := some [
         { id := some "f1", type := some "function",
           function := some
             { name := some "do_work",
               arguments := some "\x7b\"path\":\"foo\"\x7d" } }] } :
      GlmMessage).content = some (GlmContentValue.str "") := by
  have h := convertContent_content_nonNull_spec c9Turn
    { role := GlmRole.assistant,
      content := some (GlmContentValue.str ""),
      reasoning_content := some (GlmContentValue.str "think"),
      name := none, tool_call_id := none,
      tool_calls := some [
        { id := some "f1", type := some "function",
          function := some
            { name := some "do_work",
              arguments := some "\x7b\"path\":\"foo\"\x7d" } }] }
    (by
      rw [show convertContent c9Turn =
        [{ role := GlmRole.assistant,
           content := some (GlmContentValue.str ""),
           reasoning_content := some (GlmContentValue.str "think"),
           name := none, tool_call_id := none,
           tool_calls := some [
             { id := some "f1", type := some "function",
               function := some
                 { name := some "do_work",
                   arguments := some "\x7b\"path\":\"foo\"\x7d" } }] }] from rfl]
      exact List.mem_singleton.mpr rfl)
  exact ⟨h.1, h.2 rfl (by rfl)⟩

end Glm
